import Mathlib

/-!
Shallow embedding of the ByteNote transaction store (`processing_book.py`)
and the signature generator (`processing_line.py`, `Transaction.sign`).

Modelling conventions:
* A Python `Transaction` object used as a key is modelled by `Tx`:
  `tid` stands for the object's identity (Python `is` comparison becomes
  `tid` equality; distinct live objects have distinct `tid`s), and `sig`
  is its `signature` string as a list of characters.
* Amounts are Python ints, modelled as `Int`; Python truthiness of an
  amount is `amt ≠ 0`.
* `ProcessingBook` is `Book`: `level`, a 36-slot page array modelled as a
  `List (Option Page)` of length 36 (`ArrayR` of the source, always
  created with 36 slots), `total_count` (a Python int, so `Int`) and
  `error_count`.
* A page (`self.pages[idx]`) is `None`, a `(transaction, amount)` tuple,
  or a nested `ProcessingBook`: `Option Page` with `Page.entry`/`Page.sub`.
* Exceptions are modelled by explicit error results:
  `KeyError ↦ Err.notFound`, `IndexError` (signature exhausted)
  `↦ Err.outOfRange`, `ValueError` (illegal character in
  `str.index`) `↦ Err.valueError`.  Mutating operations return the state
  of the structure at the moment the exception propagates, so that
  atomicity is a theorem about the embedding, not an artefact of it.
-/

/-- A transaction key: identity token plus signature characters. -/
structure Tx where
  tid : Nat
  sig : List Char
  deriving DecidableEq, Repr

inductive Err where
  | notFound
  | outOfRange
  | valueError
  deriving DecidableEq, Repr

mutual
/-- Content of a non-empty page: a `(transaction, amount)` tuple or a
nested `ProcessingBook`. -/
inductive Page : Type where
  | entry : Tx → Int → Page
  | sub : Book → Page

/-- `ProcessingBook(level)`: level, 36 pages, `total_count`, `error_count`. -/
inductive Book : Type where
  | node : Nat → List (Option Page) → Int → Nat → Book
end

def Book.level : Book → Nat
  | .node l _ _ _ => l

def Book.pages : Book → List (Option Page)
  | .node _ p _ _ => p

def Book.tcount : Book → Int
  | .node _ _ t _ => t

def Book.ecount : Book → Nat
  | .node _ _ _ e => e

/-- `ProcessingBook.LEGAL_CHARACTERS = "abcdefghijklmnopqrstuvwxyz0123456789"`. -/
def LEGAL_CHARACTERS : List Char := "abcdefghijklmnopqrstuvwxyz0123456789".toList

/-- `ProcessingBook.page_index`: `LEGAL_CHARACTERS.index(character)`, the
first index of the character in the alphabet; `none` models the
`ValueError` Python raises for an absent character. -/
def pageIndex (c : Char) : Option Nat :=
  if c ∈ LEGAL_CHARACTERS then some (LEGAL_CHARACTERS.indexOf c) else none

/-- The page index selected by key `t` at level `l`:
`page_index(t.signature[l])`; `none` when the signature is exhausted. -/
def keyIdx (t : Tx) (l : Nat) : Option Nat :=
  match t.sig.get? l with
  | none => none
  | some c => pageIndex c

/-- `ProcessingBook.__init__`: 36 empty pages, zero counters. -/
def emptyBook (l : Nat) : Book := .node l (List.replicate 36 none) 0 0

theorem sizeOf_option_page_lt {l : List (Option Page)} {i : Nat} {p : Page}
    (h : l.getD i none = some p) : sizeOf p < sizeOf l := by
  induction l generalizing i with
  | nil => simp [List.getD] at h
  | cons hd tl ih =>
    cases i with
    | zero =>
      simp [List.getD] at h
      subst h
      simp
      omega
    | succ j =>
      have := ih (by simpa [List.getD] using h)
      simp
      omega

/-- The collision path of `__setitem__` (lines 60–66 of the source):
`new_book = ProcessingBook(level=self.level + 1); new_book[existing] =
existing_amt; new_book[transaction] = amount`.  The first insert lands in
an empty page; the second either diverges, re-collides one level deeper,
or (same identity) takes the conflict path.  An exception while filling
`new_book` discards it, leaving the caller untouched. -/
def collide (lvl : Nat) (t0 : Tx) (a0 : Int) (t1 : Tx) (a1 : Int) :
    Except Err Book :=
  match h0 : t0.sig.get? lvl with
  | none => .error .outOfRange
  | some c0 =>
    match pageIndex c0 with
    | none => .error .valueError
    | some i0 =>
      match t1.sig.get? lvl with
      | none => .error .outOfRange
      | some c1 =>
        match pageIndex c1 with
        | none => .error .valueError
        | some i1 =>
          if i1 = i0 then
            if t0.tid = t1.tid then
              .ok (.node lvl ((List.replicate 36 none).set i0 (some (.entry t0 a0))) 1
                (if a0 ≠ a1 then 1 else 0))
            else
              match collide (lvl + 1) t0 a0 t1 a1 with
              | .error e => .error e
              | .ok nb =>
                .ok (.node lvl ((List.replicate 36 none).set i0 (some (.sub nb))) 2 0)
          else
            .ok (.node lvl
              (((List.replicate 36 none).set i0 (some (.entry t0 a0))).set i1
                (some (.entry t1 a1))) 2 0)
  termination_by t0.sig.length - lvl
  decreasing_by
    have : lvl < t0.sig.length := by
      by_contra hc
      rw [List.get?_eq_none.mpr (by omega)] at h0
      exact Option.noConfusion h0
    omega

/-- `ProcessingBook.__setitem__`.  Returns the structure state together
with the outcome.  The nested-book branch reflects the source's
`added = page[transaction] = amount`, a chained assignment that binds
`added` to `amount` (whose truthiness is `amt ≠ 0`), not to the recursive
call's boolean. -/
def setItem (b : Book) (tx : Tx) (amt : Int) : Book × Except Err Bool :=
  match b with
  | .node lvl pages tc ec =>
    match tx.sig.get? lvl with
    | none => (.node lvl pages tc ec, .error .outOfRange)
    | some c =>
      match pageIndex c with
      | none => (.node lvl pages tc ec, .error .valueError)
      | some i =>
        match h : pages.getD i none with
        | none =>
          (.node lvl (pages.set i (some (.entry tx amt))) (tc + 1) ec, .ok true)
        | some (.entry t0 a0) =>
          if t0.tid = tx.tid then
            if a0 ≠ amt then (.node lvl pages tc (ec + 1), .ok false)
            else (.node lvl pages tc ec, .ok false)
          else
            match collide (lvl + 1) t0 a0 tx amt with
            | .error e => (.node lvl pages tc ec, .error e)
            | .ok nb =>
              (.node lvl (pages.set i (some (.sub nb))) (tc + 1) ec, .ok true)
        | some (.sub b') =>
          match setItem b' tx amt with
          | (b2, .error e) =>
            (.node lvl (pages.set i (some (.sub b2))) tc ec, .error e)
          | (b2, .ok _) =>
            if amt ≠ 0 then
              (.node lvl (pages.set i (some (.sub b2))) (tc + 1) ec, .ok true)
            else
              (.node lvl (pages.set i (some (.sub b2))) tc ec, .ok false)
  termination_by sizeOf b
  decreasing_by
    have h1 := sizeOf_option_page_lt h
    simp at h1 ⊢
    omega

/-- `ProcessingBook.__getitem__`. -/
def getItem (b : Book) (tx : Tx) : Except Err Int :=
  match b with
  | .node lvl pages _ _ =>
    match tx.sig.get? lvl with
    | none => .error .outOfRange
    | some c =>
      match pageIndex c with
      | none => .error .valueError
      | some i =>
        match h : pages.getD i none with
        | none => .error .notFound
        | some (.entry t0 a0) =>
          if t0.tid = tx.tid then .ok a0 else .error .notFound
        | some (.sub b') => getItem b' tx
  termination_by sizeOf b
  decreasing_by
    have h1 := sizeOf_option_page_lt h
    simp at h1 ⊢
    omega

/-- The collapse scan of `__delitem__`: the first non-`None` page of the
child book (`for i in range(len(page.pages)): if page.pages[i] is not
None: ...; break`). -/
def firstSome : List (Option Page) → Option Page
  | [] => none
  | none :: rest => firstSome rest
  | some p :: _ => some p

/-- `ProcessingBook.__delitem__`.  On an exception the returned book is
the state at the moment the exception propagates. -/
def delItem (b : Book) (tx : Tx) : Book × Option Err :=
  match b with
  | .node lvl pages tc ec =>
    match tx.sig.get? lvl with
    | none => (.node lvl pages tc ec, some .outOfRange)
    | some c =>
      match pageIndex c with
      | none => (.node lvl pages tc ec, some .valueError)
      | some i =>
        match h : pages.getD i none with
        | none => (.node lvl pages tc ec, some .notFound)
        | some (.entry t0 _) =>
          if t0.tid = tx.tid then
            (.node lvl (pages.set i none) (tc - 1) ec, none)
          else (.node lvl pages tc ec, some .notFound)
        | some (.sub b') =>
          match delItem b' tx with
          | (b2, some e) =>
            (.node lvl (pages.set i (some (.sub b2))) tc ec, some e)
          | (b2, none) =>
            if b2.tcount = 1 then
              match firstSome b2.pages with
              | some pg => (.node lvl (pages.set i (some pg)) (tc - 1) ec, none)
              | none =>
                (.node lvl (pages.set i (some (.sub b2))) (tc - 1) ec, none)
            else (.node lvl (pages.set i (some (.sub b2))) (tc - 1) ec, none)
  termination_by sizeOf b
  decreasing_by
    have h1 := sizeOf_option_page_lt h
    simp at h1 ⊢
    omega

/-- `ProcessingBook.__len__`: the cached `total_count`. -/
def lengthB (b : Book) : Int := b.tcount

mutual
/-- Pairs yielded from a single page during `__iter__`. -/
def pageEntries : Page → List (Tx × Int)
  | .entry t a => [(t, a)]
  | .sub b => bookEntries b

/-- `ProcessingBook.__iter__`: pages are visited in index order 0..35
(the source iterates `LEGAL_CHARACTERS` and maps each character back to
its index, which enumerates the pages in list order). -/
def bookEntries : Book → List (Tx × Int)
  | .node _ pages _ _ => slotsEntries pages

def slotsEntries : List (Option Page) → List (Tx × Int)
  | [] => []
  | none :: rest => slotsEntries rest
  | some p :: rest => pageEntries p ++ slotsEntries rest
end

mutual
/-- `get_error_count` contribution of one page: tuples contribute
nothing, nested books recurse. -/
def pageErr : Page → Nat
  | .entry _ _ => 0
  | .sub b => bookErr b

/-- `ProcessingBook.get_error_count`. -/
def bookErr : Book → Nat
  | .node _ pages _ ec => ec + slotsErr pages

def slotsErr : List (Option Page) → Nat
  | [] => 0
  | none :: rest => slotsErr rest
  | some p :: rest => pageErr p + slotsErr rest
end

/-! ## `Transaction.sign` (`processing_line.py`) -/

def SIGNATURE_LENGTH : Nat := 36
def SIGNATURE_BASE : Nat := 36
def SIGNATURE_MODULUS : Nat := 36 ^ 36
def DIGITS : List Char := "0123456789abcdefghijklmnopqrstuvwxyz".toList
def SEED : Nat := 1469598103934665603
def MULTIPLIER_A : Nat := 11400714819323198485
def MULTIPLIER_B : Nat := 1099511628211

/-- The rolling-hash accumulation of `sign` up to the final modulus.
Python ints are unbounded, so plain `Nat` arithmetic is exact; the
timestamp is taken as a natural number (the tests only sign non-negative
timestamps) and `str(self.timestamp)` is its decimal rendering. -/
def signHash (timestamp : Nat) (fromUser toUser : List Char) : Nat :=
  let h0 := (Nat.xor SEED timestamp) * MULTIPLIER_A
  let h1 := (Nat.xor h0 (fromUser.length <<< 8)) * MULTIPLIER_B
  let h2 := fromUser.foldl (fun h c => (Nat.xor h c.toNat) * MULTIPLIER_A + MULTIPLIER_B) h1
  let h3 := (Nat.repr timestamp).toList.foldl
    (fun h c => (Nat.xor h (c.toNat <<< 4)) * MULTIPLIER_B + MULTIPLIER_A) h2
  let h4 := (Nat.xor h3 (toUser.length <<< 16)) * MULTIPLIER_A
  let h5 := toUser.foldl (fun h c => (Nat.xor h c.toNat) * MULTIPLIER_B + MULTIPLIER_A) h4
  h5 % SIGNATURE_MODULUS

/-- The base-36 expansion loop of `sign` (`while value > 0`), most
significant digit first. -/
def toBase36 (v : Nat) : List Char :=
  if h : v = 0 then []
  else toBase36 (v / 36) ++ [DIGITS.getD (v % 36) '0']
  termination_by v
  decreasing_by exact Nat.div_lt_self (Nat.pos_of_ne_zero h) (by omega)

/-- `Transaction.sign`: hash, reduce mod `36^36`, expand in base 36
(`"0"` when the value is zero) and left-pad with `'0'` to length 36. -/
def Transaction.sign (timestamp : Nat) (fromUser toUser : List Char) : List Char :=
  let value := signHash timestamp fromUser toUser
  let signature := if value = 0 then ['0'] else toBase36 value
  List.replicate (SIGNATURE_LENGTH - signature.length) '0' ++ signature

/-! ## Well-formedness predicates -/

mutual
/-- Structural well-formedness: 36 pages per node, every tuple sits in
the page selected by its signature character at the node's level, every
nested book is one level deeper and itself well-formed, and every key
reachable through a nested book selects that book's page at this level.
(Counters are unconstrained: the claims about them are separate.) -/
def goodB : Book → Bool
  | .node lvl pages _ _ => pages.length == 36 && goodSlots lvl 0 pages

def goodSlots : Nat → Nat → List (Option Page) → Bool
  | _, _, [] => true
  | lvl, i, none :: rest => goodSlots lvl (i + 1) rest
  | lvl, i, some (.entry t _) :: rest =>
    (keyIdx t lvl == some i) && goodSlots lvl (i + 1) rest
  | lvl, i, some (.sub b') :: rest =>
    (b'.level == lvl + 1) && goodB b' &&
      (bookEntries b').all (fun e => keyIdx e.1 lvl == some i) &&
      goodSlots lvl (i + 1) rest
end

mutual
/-- Full invariant of the specification's data model: structural
well-formedness plus accurate cached counts (`count` equals the subtree
population) and no nested book holding fewer than two keys. -/
def fullB : Book → Bool
  | .node lvl pages tc _ =>
    pages.length == 36 && tc == Int.ofNat (slotsEntries pages).length &&
      fullSlots lvl 0 pages

def fullSlots : Nat → Nat → List (Option Page) → Bool
  | _, _, [] => true
  | lvl, i, none :: rest => fullSlots lvl (i + 1) rest
  | lvl, i, some (.entry t _) :: rest =>
    (keyIdx t lvl == some i) && fullSlots lvl (i + 1) rest
  | lvl, i, some (.sub b') :: rest =>
    (b'.level == lvl + 1) && fullB b' && decide (2 ≤ (bookEntries b').length) &&
      (bookEntries b').all (fun e => keyIdx e.1 lvl == some i) &&
      fullSlots lvl (i + 1) rest
end

/-- The identity tokens of all stored keys. -/
def tids (b : Book) : List Nat := (bookEntries b).map (fun e => e.1.tid)

/-! ## Basic facts about the alphabet and page access -/

theorem legal_length : LEGAL_CHARACTERS.length = 36 := by decide

theorem pageIndex_lt_36 {c : Char} {i : Nat} (h : pageIndex c = some i) :
    i < 36 := by
  unfold pageIndex at h
  split at h
  · cases h
    exact legal_length ▸ List.indexOf_lt_length.mpr (by assumption)
  · cases h

theorem pageIndex_inj {c1 c2 : Char} {i : Nat} (h1 : pageIndex c1 = some i)
    (h2 : pageIndex c2 = some i) : c1 = c2 := by
  unfold pageIndex at h1 h2
  by_cases m1 : c1 ∈ LEGAL_CHARACTERS
  · by_cases m2 : c2 ∈ LEGAL_CHARACTERS
    · simp only [m1, if_pos, Option.some.injEq] at h1
      simp only [m2, if_pos, Option.some.injEq] at h2
      have hm1 : List.indexOf c1 LEGAL_CHARACTERS < LEGAL_CHARACTERS.length :=
        List.indexOf_lt_length.mpr m1
      have hm2 : List.indexOf c2 LEGAL_CHARACTERS < LEGAL_CHARACTERS.length :=
        List.indexOf_lt_length.mpr m2
      have g1 : LEGAL_CHARACTERS.get? (List.indexOf c1 LEGAL_CHARACTERS) = some c1 :=
        List.get?_eq_some.mpr ⟨hm1, List.indexOf_get hm1⟩
      have g2 : LEGAL_CHARACTERS.get? (List.indexOf c2 LEGAL_CHARACTERS) = some c2 :=
        List.get?_eq_some.mpr ⟨hm2, List.indexOf_get hm2⟩
      rw [h1] at g1
      rw [h2] at g2
      rw [g1] at g2
      exact Option.some.inj g2
    · simp [m2] at h2
  · simp [m1] at h1

theorem keyIdx_eq_some {t : Tx} {lvl i : Nat} :
    keyIdx t lvl = some i ↔
      ∃ c, t.sig.get? lvl = some c ∧ pageIndex c = some i := by
  unfold keyIdx
  cases h : t.sig.get? lvl with
  | none => simp
  | some c => simp

theorem getD_none_eq_some {α : Type} {l : List (Option α)} {i : Nat} {p : α} :
    l.getD i none = some p ↔ l.get? i = some (some p) := by
  rw [List.getD_eq_get?]
  cases h : l.get? i with
  | none => simp
  | some s => cases s <;> simp

theorem getD_of_get? {α : Type} {l : List (Option α)} {i : Nat} {s : Option α}
    (h : l.get? i = some s) : l.getD i none = s := by
  rw [List.getD_eq_get?, h]; rfl

theorem getD_set_self {α : Type} {l : List (Option α)} {i : Nat}
    (s : Option α) (h : i < l.length) : (l.set i s).getD i none = s := by
  rw [List.getD_eq_get?, List.get?_set_eq]
  rw [List.get?_eq_some.mpr ⟨h, rfl⟩]
  rfl

theorem set_get?_self {α : Type} : ∀ (l : List α) (i : Nat) (a : α),
    l.get? i = some a → l.set i a = l := by
  intro l
  induction l with
  | nil => intro i a h; cases h
  | cons hd tl ih =>
    intro i a h
    cases i with
    | zero => cases h; rfl
    | succ j => simpa using ih j a h

/-! ## Decomposition of iteration and error sums over the page list -/

/-- Pairs yielded by a single slot. -/
def sEnt : Option Page → List (Tx × Int)
  | none => []
  | some p => pageEntries p

/-- `get_error_count` contribution of a single slot. -/
def sErr : Option Page → Nat
  | none => 0
  | some p => pageErr p

theorem slotsEntries_nil : slotsEntries [] = [] := by
  simp [slotsEntries]

theorem slotsErr_nil : slotsErr [] = 0 := by
  simp [slotsErr]

theorem slotsEntries_cons (s : Option Page) (rest : List (Option Page)) :
    slotsEntries (s :: rest) = sEnt s ++ slotsEntries rest := by
  cases s <;> simp [slotsEntries, sEnt]

theorem slotsErr_cons (s : Option Page) (rest : List (Option Page)) :
    slotsErr (s :: rest) = sErr s + slotsErr rest := by
  cases s <;> simp [slotsErr, sErr]

theorem slotsEntries_decomp : ∀ (l : List (Option Page)) (i : Nat)
    (s : Option Page), l.get? i = some s →
    slotsEntries l =
      slotsEntries (l.take i) ++ sEnt s ++ slotsEntries (l.drop (i + 1)) := by
  intro l
  induction l with
  | nil => intro i s h; cases h
  | cons hd tl ih =>
    intro i s h
    cases i with
    | zero =>
      cases h
      simp [slotsEntries_cons, slotsEntries]
    | succ j =>
      have := ih j s h
      simp only [List.take_succ_cons, List.drop_succ_cons]
      rw [slotsEntries_cons, slotsEntries_cons, this]
      simp

theorem slotsEntries_set : ∀ (l : List (Option Page)) (i : Nat)
    (s' : Option Page), i < l.length →
    slotsEntries (l.set i s') =
      slotsEntries (l.take i) ++ sEnt s' ++ slotsEntries (l.drop (i + 1)) := by
  intro l
  induction l with
  | nil => intro i s' h; simp at h
  | cons hd tl ih =>
    intro i s' h
    cases i with
    | zero =>
      simp [slotsEntries_cons, slotsEntries_nil]
    | succ j =>
      have := ih j s' (by simpa using h)
      simp only [List.set_cons_succ, List.take_succ_cons, List.drop_succ_cons]
      rw [slotsEntries_cons, slotsEntries_cons, this]
      simp

theorem slotsErr_decomp : ∀ (l : List (Option Page)) (i : Nat)
    (s : Option Page), l.get? i = some s →
    slotsErr l = slotsErr (l.take i) + sErr s + slotsErr (l.drop (i + 1)) := by
  intro l
  induction l with
  | nil => intro i s h; cases h
  | cons hd tl ih =>
    intro i s h
    cases i with
    | zero =>
      cases h
      simp [slotsErr_cons, slotsErr_nil]
      try omega
    | succ j =>
      have := ih j s h
      simp only [List.take_succ_cons, List.drop_succ_cons]
      rw [slotsErr_cons, slotsErr_cons, this]
      omega

theorem slotsErr_set : ∀ (l : List (Option Page)) (i : Nat)
    (s' : Option Page), i < l.length →
    slotsErr (l.set i s') =
      slotsErr (l.take i) + sErr s' + slotsErr (l.drop (i + 1)) := by
  intro l
  induction l with
  | nil => intro i s' h; simp at h
  | cons hd tl ih =>
    intro i s' h
    cases i with
    | zero =>
      simp [slotsErr_cons, slotsErr_nil]
      try omega
    | succ j =>
      have := ih j s' (by simpa using h)
      simp only [List.set_cons_succ, List.take_succ_cons, List.drop_succ_cons]
      rw [slotsErr_cons, slotsErr_cons, this]
      omega

theorem mem_slotsEntries : ∀ (l : List (Option Page)) (x : Tx × Int),
    x ∈ slotsEntries l ↔ ∃ i s, l.get? i = some s ∧ x ∈ sEnt s := by
  intro l
  induction l with
  | nil =>
    intro x
    constructor
    · intro h; cases h
    · rintro ⟨i, s, h, _⟩; cases h
  | cons hd tl ih =>
    intro x
    rw [slotsEntries_cons, List.mem_append]
    constructor
    · rintro (h | h)
      · exact ⟨0, hd, rfl, h⟩
      · obtain ⟨i, s, h1, h2⟩ := (ih x).mp h
        exact ⟨i + 1, s, h1, h2⟩
    · rintro ⟨i, s, h1, h2⟩
      cases i with
      | zero => cases h1; exact Or.inl h2
      | succ j => exact Or.inr ((ih x).mpr ⟨j, s, h1, h2⟩)

/-! ## Access and update lemmas for the well-formedness predicates -/

/-- What structural well-formedness guarantees about the slot at index `i`. -/
def slotOkG (lvl i : Nat) : Option Page → Prop
  | none => True
  | some (.entry t _) => keyIdx t lvl = some i
  | some (.sub b') => b'.level = lvl + 1 ∧ goodB b' = true ∧
      ∀ e ∈ bookEntries b', keyIdx e.1 lvl = some i

/-- What the full invariant guarantees about the slot at index `i`. -/
def slotOkF (lvl i : Nat) : Option Page → Prop
  | none => True
  | some (.entry t _) => keyIdx t lvl = some i
  | some (.sub b') => b'.level = lvl + 1 ∧ fullB b' = true ∧
      2 ≤ (bookEntries b').length ∧ ∀ e ∈ bookEntries b', keyIdx e.1 lvl = some i

theorem goodSlots_get : ∀ (l : List (Option Page)) (lvl k i : Nat)
    (s : Option Page), goodSlots lvl k l = true → l.get? i = some s →
    slotOkG lvl (k + i) s := by
  intro l
  induction l with
  | nil => intro lvl k i s _ h; cases h
  | cons hd tl ih =>
    intro lvl k i s hg h
    cases i with
    | zero =>
      cases h
      match hd with
      | none => trivial
      | some (.entry t a) =>
        simp only [goodSlots, Bool.and_eq_true, beq_iff_eq] at hg
        simpa [slotOkG] using hg.1
      | some (.sub b') =>
        simp only [goodSlots, Bool.and_eq_true, beq_iff_eq, List.all_eq_true] at hg
        refine ⟨hg.1.1.1, hg.1.1.2, ?_⟩
        intro e he
        have := hg.1.2 e he
        simpa [Nat.add_zero] using this
    | succ j =>
      have hrest : goodSlots lvl (k + 1) tl = true := by
        match hd with
        | none => simpa [goodSlots] using hg
        | some (.entry t a) =>
          simp only [goodSlots, Bool.and_eq_true] at hg; exact hg.2
        | some (.sub b') =>
          simp only [goodSlots, Bool.and_eq_true] at hg; exact hg.2
      have := ih lvl (k + 1) j s hrest h
      have heq : k + 1 + j = k + (j + 1) := by omega
      rwa [heq] at this

theorem goodSlots_set : ∀ (l : List (Option Page)) (lvl k i : Nat)
    (s' : Option Page), goodSlots lvl k l = true → slotOkG lvl (k + i) s' →
    goodSlots lvl k (l.set i s') = true := by
  intro l
  induction l with
  | nil => intro lvl k i s' hg _; simpa using hg
  | cons hd tl ih =>
    intro lvl k i s' hg hok
    have hrest : goodSlots lvl (k + 1) tl = true := by
      match hd with
      | none => simpa [goodSlots] using hg
      | some (.entry t a) =>
        simp only [goodSlots, Bool.and_eq_true] at hg; exact hg.2
      | some (.sub b') =>
        simp only [goodSlots, Bool.and_eq_true] at hg; exact hg.2
    cases i with
    | zero =>
      rw [List.set_cons_zero]
      match s' with
      | none => simpa [goodSlots] using hrest
      | some (.entry t a) =>
        simp only [goodSlots, Bool.and_eq_true, beq_iff_eq]
        exact ⟨by simpa [slotOkG] using hok, hrest⟩
      | some (.sub b') =>
        obtain ⟨h1, h2, h3⟩ := hok
        simp only [goodSlots, Bool.and_eq_true, beq_iff_eq, List.all_eq_true]
        refine ⟨⟨⟨h1, h2⟩, ?_⟩, hrest⟩
        intro e he
        simpa using h3 e he
    | succ j =>
      rw [List.set_cons_succ]
      have hok' : slotOkG lvl (k + 1 + j) s' := by
        have heq : k + 1 + j = k + (j + 1) := by omega
        rwa [heq]
      have := ih lvl (k + 1) j s' hrest hok'
      match hd with
      | none => simpa [goodSlots] using this
      | some (.entry t a) =>
        simp only [goodSlots, Bool.and_eq_true] at hg ⊢
        exact ⟨hg.1, this⟩
      | some (.sub b') =>
        simp only [goodSlots, Bool.and_eq_true] at hg ⊢
        exact ⟨hg.1, this⟩

theorem fullSlots_get : ∀ (l : List (Option Page)) (lvl k i : Nat)
    (s : Option Page), fullSlots lvl k l = true → l.get? i = some s →
    slotOkF lvl (k + i) s := by
  intro l
  induction l with
  | nil => intro lvl k i s _ h; cases h
  | cons hd tl ih =>
    intro lvl k i s hg h
    cases i with
    | zero =>
      cases h
      match hd with
      | none => trivial
      | some (.entry t a) =>
        simp only [fullSlots, Bool.and_eq_true, beq_iff_eq] at hg
        simpa [slotOkF] using hg.1
      | some (.sub b') =>
        simp only [fullSlots, Bool.and_eq_true, beq_iff_eq, List.all_eq_true,
          decide_eq_true_eq] at hg
        refine ⟨hg.1.1.1.1, hg.1.1.1.2, hg.1.1.2, ?_⟩
        intro e he
        have := hg.1.2 e he
        simpa [Nat.add_zero] using this
    | succ j =>
      have hrest : fullSlots lvl (k + 1) tl = true := by
        match hd with
        | none => simpa [fullSlots] using hg
        | some (.entry t a) =>
          simp only [fullSlots, Bool.and_eq_true] at hg; exact hg.2
        | some (.sub b') =>
          simp only [fullSlots, Bool.and_eq_true] at hg; exact hg.2
      have := ih lvl (k + 1) j s hrest h
      have heq : k + 1 + j = k + (j + 1) := by omega
      rwa [heq] at this

theorem fullSlots_set : ∀ (l : List (Option Page)) (lvl k i : Nat)
    (s' : Option Page), fullSlots lvl k l = true → slotOkF lvl (k + i) s' →
    fullSlots lvl k (l.set i s') = true := by
  intro l
  induction l with
  | nil => intro lvl k i s' hg _; simpa using hg
  | cons hd tl ih =>
    intro lvl k i s' hg hok
    have hrest : fullSlots lvl (k + 1) tl = true := by
      match hd with
      | none => simpa [fullSlots] using hg
      | some (.entry t a) =>
        simp only [fullSlots, Bool.and_eq_true] at hg; exact hg.2
      | some (.sub b') =>
        simp only [fullSlots, Bool.and_eq_true] at hg; exact hg.2
    cases i with
    | zero =>
      rw [List.set_cons_zero]
      match s' with
      | none => simpa [fullSlots] using hrest
      | some (.entry t a) =>
        simp only [fullSlots, Bool.and_eq_true, beq_iff_eq]
        exact ⟨by simpa [slotOkF] using hok, hrest⟩
      | some (.sub b') =>
        obtain ⟨h1, h2, h3, h4⟩ := hok
        simp only [fullSlots, Bool.and_eq_true, beq_iff_eq, List.all_eq_true,
          decide_eq_true_eq]
        refine ⟨⟨⟨⟨h1, h2⟩, h3⟩, ?_⟩, hrest⟩
        intro e he
        simpa using h4 e he
    | succ j =>
      rw [List.set_cons_succ]
      have hok' : slotOkF lvl (k + 1 + j) s' := by
        have heq : k + 1 + j = k + (j + 1) := by omega
        rwa [heq]
      have := ih lvl (k + 1) j s' hrest hok'
      match hd with
      | none => simpa [fullSlots] using this
      | some (.entry t a) =>
        simp only [fullSlots, Bool.and_eq_true] at hg ⊢
        exact ⟨hg.1, this⟩
      | some (.sub b') =>
        simp only [fullSlots, Bool.and_eq_true] at hg ⊢
        exact ⟨hg.1, this⟩

theorem goodSlots_set0 (a : List (Option Page)) (lvl i : Nat)
    (s' : Option Page) (hg : goodSlots lvl 0 a = true)
    (hok : slotOkG lvl i s') : goodSlots lvl 0 (a.set i s') = true :=
  goodSlots_set a lvl 0 i s' hg (by simpa using hok)

theorem fullSlots_set0 (a : List (Option Page)) (lvl i : Nat)
    (s' : Option Page) (hg : fullSlots lvl 0 a = true)
    (hok : slotOkF lvl i s') : fullSlots lvl 0 (a.set i s') = true :=
  fullSlots_set a lvl 0 i s' hg (by simpa using hok)

theorem goodB_node {lvl : Nat} {pages : List (Option Page)} {tc : Int}
    {ec : Nat} : goodB (.node lvl pages tc ec) = true ↔
      pages.length = 36 ∧ goodSlots lvl 0 pages = true := by
  simp [goodB]

theorem fullB_node {lvl : Nat} {pages : List (Option Page)} {tc : Int}
    {ec : Nat} : fullB (.node lvl pages tc ec) = true ↔
      pages.length = 36 ∧ tc = Int.ofNat (slotsEntries pages).length ∧
        fullSlots lvl 0 pages = true := by
  simp [fullB, and_assoc]

/-! ## Evaluation helpers -/

theorem bookEntries_node (l : Nat) (a : List (Option Page)) (tc : Int)
    (ec : Nat) : bookEntries (.node l a tc ec) = slotsEntries a := by
  simp [bookEntries]

theorem bookErr_node (l : Nat) (a : List (Option Page)) (tc : Int) (ec : Nat) :
    bookErr (.node l a tc ec) = ec + slotsErr a := by
  simp [bookErr]

theorem pageEntries_entry (t : Tx) (a : Int) :
    pageEntries (.entry t a) = [(t, a)] := by
  simp [pageEntries]

theorem pageEntries_sub (b : Book) : pageEntries (.sub b) = bookEntries b := by
  simp [pageEntries]

theorem pageErr_entry (t : Tx) (a : Int) : pageErr (.entry t a) = 0 := by
  simp [pageErr]

theorem pageErr_sub (b : Book) : pageErr (.sub b) = bookErr b := by
  simp [pageErr]

theorem mem_entries_locate {a : List (Option Page)} {x : Tx × Int}
    (h : x ∈ slotsEntries a) :
    ∃ j p, a.get? j = some (some p) ∧ x ∈ pageEntries p := by
  obtain ⟨j, s, hj, hx⟩ := (mem_slotsEntries a x).mp h
  cases s with
  | none => simp [sEnt] at hx
  | some p => exact ⟨j, p, hj, by simpa [sEnt] using hx⟩

theorem mem_slots_of_page {a : List (Option Page)} {j : Nat} {p : Page}
    {x : Tx × Int} (hj : a.get? j = some (some p)) (hx : x ∈ pageEntries p) :
    x ∈ slotsEntries a :=
  (mem_slotsEntries a x).mpr ⟨j, some p, hj, by simpa [sEnt] using hx⟩

/-! ## Branch evaluation lemmas for the operations -/

section RunLemmas

variable {l i : Nat} {a : List (Option Page)} {tc : Int} {ec : Nat}
variable {tx t0 : Tx} {amt a0 : Int} {c : Char} {b' b2 : Book}

theorem setItem_run_sigNone (hsig : tx.sig.get? l = none) :
    setItem (.node l a tc ec) tx amt = (.node l a tc ec, .error .outOfRange) := by
  rw [setItem.eq_def]; simp only [hsig]

theorem setItem_run_badChar (hsig : tx.sig.get? l = some c)
    (hpi : pageIndex c = none) :
    setItem (.node l a tc ec) tx amt = (.node l a tc ec, .error .valueError) := by
  rw [setItem.eq_def]; simp only [hsig, hpi]

theorem setItem_run_empty (hsig : tx.sig.get? l = some c)
    (hpi : pageIndex c = some i) (hgd : a.getD i none = none) :
    setItem (.node l a tc ec) tx amt =
      (.node l (a.set i (some (.entry tx amt))) (tc + 1) ec, .ok true) := by
  rw [setItem.eq_def]
  simp only [hsig, hpi]
  split
  · rfl
  · next heq => rw [hgd] at heq; cases heq
  · next heq => rw [hgd] at heq; cases heq

theorem setItem_run_conflict (hsig : tx.sig.get? l = some c)
    (hpi : pageIndex c = some i) (hgd : a.getD i none = some (.entry t0 a0))
    (htid : t0.tid = tx.tid) (hne : a0 ≠ amt) :
    setItem (.node l a tc ec) tx amt = (.node l a tc (ec + 1), .ok false) := by
  rw [setItem.eq_def]
  simp only [hsig, hpi]
  split
  · next heq => rw [hgd] at heq; cases heq
  · next heq =>
    rw [hgd] at heq; cases heq
    simp only [if_pos htid, if_pos hne]
  · next heq => rw [hgd] at heq; cases heq

theorem setItem_run_same (hsig : tx.sig.get? l = some c)
    (hpi : pageIndex c = some i) (hgd : a.getD i none = some (.entry t0 a0))
    (htid : t0.tid = tx.tid) (hne : a0 = amt) :
    setItem (.node l a tc ec) tx amt = (.node l a tc ec, .ok false) := by
  rw [setItem.eq_def]
  simp only [hsig, hpi]
  split
  · next heq => rw [hgd] at heq; cases heq
  · next heq =>
    rw [hgd] at heq; cases heq
    simp only [if_pos htid, if_neg (not_ne_iff.mpr hne)]
  · next heq => rw [hgd] at heq; cases heq

theorem setItem_run_collide (hsig : tx.sig.get? l = some c)
    (hpi : pageIndex c = some i) (hgd : a.getD i none = some (.entry t0 a0))
    (htid : ¬t0.tid = tx.tid) :
    setItem (.node l a tc ec) tx amt =
      match collide (l + 1) t0 a0 tx amt with
      | .error e => (.node l a tc ec, .error e)
      | .ok nb => (.node l (a.set i (some (.sub nb))) (tc + 1) ec, .ok true) := by
  rw [setItem.eq_def]
  simp only [hsig, hpi]
  split
  · next heq => rw [hgd] at heq; cases heq
  · next heq =>
    rw [hgd] at heq; cases heq
    simp only [if_neg htid]
  · next heq => rw [hgd] at heq; cases heq

theorem setItem_run_sub_err {e : Err} (hsig : tx.sig.get? l = some c)
    (hpi : pageIndex c = some i) (hgd : a.getD i none = some (.sub b'))
    (hrec : setItem b' tx amt = (b2, .error e)) :
    setItem (.node l a tc ec) tx amt =
      (.node l (a.set i (some (.sub b2))) tc ec, .error e) := by
  rw [setItem.eq_def]
  simp only [hsig, hpi]
  split
  · next heq => rw [hgd] at heq; cases heq
  · next heq => rw [hgd] at heq; cases heq
  · next heq =>
    rw [hgd] at heq; cases heq
    simp only [hrec]

theorem setItem_run_sub_ok_t {r : Bool} (hsig : tx.sig.get? l = some c)
    (hpi : pageIndex c = some i) (hgd : a.getD i none = some (.sub b'))
    (hrec : setItem b' tx amt = (b2, .ok r)) (hamt : amt ≠ 0) :
    setItem (.node l a tc ec) tx amt =
      (.node l (a.set i (some (.sub b2))) (tc + 1) ec, .ok true) := by
  rw [setItem.eq_def]
  simp only [hsig, hpi]
  split
  · next heq => rw [hgd] at heq; cases heq
  · next heq => rw [hgd] at heq; cases heq
  · next heq =>
    rw [hgd] at heq; cases heq
    simp only [hrec, if_pos hamt]

theorem setItem_run_sub_ok_f {r : Bool} (hsig : tx.sig.get? l = some c)
    (hpi : pageIndex c = some i) (hgd : a.getD i none = some (.sub b'))
    (hrec : setItem b' tx amt = (b2, .ok r)) (hamt : amt = 0) :
    setItem (.node l a tc ec) tx amt =
      (.node l (a.set i (some (.sub b2))) tc ec, .ok false) := by
  rw [setItem.eq_def]
  simp only [hsig, hpi]
  split
  · next heq => rw [hgd] at heq; cases heq
  · next heq => rw [hgd] at heq; cases heq
  · next heq =>
    rw [hgd] at heq; cases heq
    simp only [hrec, if_neg (not_ne_iff.mpr hamt)]

theorem getItem_run_sigNone (hsig : tx.sig.get? l = none) :
    getItem (.node l a tc ec) tx = .error .outOfRange := by
  rw [getItem.eq_def]; simp only [hsig]

theorem getItem_run_badChar (hsig : tx.sig.get? l = some c)
    (hpi : pageIndex c = none) :
    getItem (.node l a tc ec) tx = .error .valueError := by
  rw [getItem.eq_def]; simp only [hsig, hpi]

theorem getItem_run_empty (hsig : tx.sig.get? l = some c)
    (hpi : pageIndex c = some i) (hgd : a.getD i none = none) :
    getItem (.node l a tc ec) tx = .error .notFound := by
  rw [getItem.eq_def]
  simp only [hsig, hpi]
  split
  · rfl
  · next heq => rw [hgd] at heq; cases heq
  · next heq => rw [hgd] at heq; cases heq

theorem getItem_run_entry (hsig : tx.sig.get? l = some c)
    (hpi : pageIndex c = some i) (hgd : a.getD i none = some (.entry t0 a0)) :
    getItem (.node l a tc ec) tx =
      if t0.tid = tx.tid then .ok a0 else .error .notFound := by
  rw [getItem.eq_def]
  simp only [hsig, hpi]
  split
  · next heq => rw [hgd] at heq; cases heq
  · next heq => rw [hgd] at heq; cases heq; rfl
  · next heq => rw [hgd] at heq; cases heq

theorem getItem_run_sub (hsig : tx.sig.get? l = some c)
    (hpi : pageIndex c = some i) (hgd : a.getD i none = some (.sub b')) :
    getItem (.node l a tc ec) tx = getItem b' tx := by
  rw [getItem.eq_def]
  simp only [hsig, hpi]
  split
  · next heq => rw [hgd] at heq; cases heq
  · next heq => rw [hgd] at heq; cases heq
  · next heq => rw [hgd] at heq; cases heq; rfl

theorem delItem_run_sigNone (hsig : tx.sig.get? l = none) :
    delItem (.node l a tc ec) tx = (.node l a tc ec, some .outOfRange) := by
  rw [delItem.eq_def]; simp only [hsig]

theorem delItem_run_badChar (hsig : tx.sig.get? l = some c)
    (hpi : pageIndex c = none) :
    delItem (.node l a tc ec) tx = (.node l a tc ec, some .valueError) := by
  rw [delItem.eq_def]; simp only [hsig, hpi]

theorem delItem_run_empty (hsig : tx.sig.get? l = some c)
    (hpi : pageIndex c = some i) (hgd : a.getD i none = none) :
    delItem (.node l a tc ec) tx = (.node l a tc ec, some .notFound) := by
  rw [delItem.eq_def]
  simp only [hsig, hpi]
  split
  · rfl
  · next heq => rw [hgd] at heq; cases heq
  · next heq => rw [hgd] at heq; cases heq

theorem delItem_run_hit (hsig : tx.sig.get? l = some c)
    (hpi : pageIndex c = some i) (hgd : a.getD i none = some (.entry t0 a0))
    (htid : t0.tid = tx.tid) :
    delItem (.node l a tc ec) tx = (.node l (a.set i none) (tc - 1) ec, none) := by
  rw [delItem.eq_def]
  simp only [hsig, hpi]
  split
  · next heq => rw [hgd] at heq; cases heq
  · next heq => rw [hgd] at heq; cases heq; simp only [if_pos htid]
  · next heq => rw [hgd] at heq; cases heq

theorem delItem_run_miss (hsig : tx.sig.get? l = some c)
    (hpi : pageIndex c = some i) (hgd : a.getD i none = some (.entry t0 a0))
    (htid : ¬t0.tid = tx.tid) :
    delItem (.node l a tc ec) tx = (.node l a tc ec, some .notFound) := by
  rw [delItem.eq_def]
  simp only [hsig, hpi]
  split
  · next heq => rw [hgd] at heq
  · next heq => rw [hgd] at heq; cases heq; simp only [if_neg htid]
  · next heq => rw [hgd] at heq; cases heq

theorem delItem_run_sub_err {e : Err} (hsig : tx.sig.get? l = some c)
    (hpi : pageIndex c = some i) (hgd : a.getD i none = some (.sub b'))
    (hrec : delItem b' tx = (b2, some e)) :
    delItem (.node l a tc ec) tx =
      (.node l (a.set i (some (.sub b2))) tc ec, some e) := by
  rw [delItem.eq_def]
  simp only [hsig, hpi]
  split
  · next heq => rw [hgd] at heq; cases heq
  · next heq => rw [hgd] at heq; cases heq
  · next heq =>
    rw [hgd] at heq; cases heq
    simp only [hrec]

theorem delItem_run_sub_collapse {pg : Page} (hsig : tx.sig.get? l = some c)
    (hpi : pageIndex c = some i) (hgd : a.getD i none = some (.sub b'))
    (hrec : delItem b' tx = (b2, none)) (hc1 : b2.tcount = 1)
    (hfs : firstSome b2.pages = some pg) :
    delItem (.node l a tc ec) tx =
      (.node l (a.set i (some pg)) (tc - 1) ec, none) := by
  rw [delItem.eq_def]
  simp only [hsig, hpi]
  split
  · next heq => rw [hgd] at heq; cases heq
  · next heq => rw [hgd] at heq; cases heq
  · next heq =>
    rw [hgd] at heq; cases heq
    simp only [hrec, if_pos hc1, hfs]

theorem delItem_run_sub_nocollapse (hsig : tx.sig.get? l = some c)
    (hpi : pageIndex c = some i) (hgd : a.getD i none = some (.sub b'))
    (hrec : delItem b' tx = (b2, none)) (hc1 : ¬b2.tcount = 1) :
    delItem (.node l a tc ec) tx =
      (.node l (a.set i (some (.sub b2))) (tc - 1) ec, none) := by
  rw [delItem.eq_def]
  simp only [hsig, hpi]
  split
  · next heq => rw [hgd] at heq; cases heq
  · next heq => rw [hgd] at heq; cases heq
  · next heq =>
    rw [hgd] at heq; cases heq
    simp only [hrec, if_neg hc1]

theorem collide_run_sig0None {lvl : Nat} {t1 : Tx} {a1 : Int}
    (h0 : t0.sig.get? lvl = none) :
    collide lvl t0 a0 t1 a1 = .error .outOfRange := by
  rw [collide.eq_def]
  split
  · rfl
  · next c0' heq => rw [h0] at heq; cases heq

theorem collide_run_step {lvl : Nat} {t1 : Tx} {a1 : Int} {c0 : Char}
    (h0 : t0.sig.get? lvl = some c0) :
    collide lvl t0 a0 t1 a1 =
      (match pageIndex c0 with
       | none => .error .valueError
       | some i0 =>
         match t1.sig.get? lvl with
         | none => .error .outOfRange
         | some c1 =>
           match pageIndex c1 with
           | none => .error .valueError
           | some i1 =>
             if i1 = i0 then
               if t0.tid = t1.tid then
                 .ok (.node lvl ((List.replicate 36 none).set i0
                   (some (.entry t0 a0))) 1 (if a0 ≠ a1 then 1 else 0))
               else
                 match collide (lvl + 1) t0 a0 t1 a1 with
                 | .error e => .error e
                 | .ok nb => .ok (.node lvl ((List.replicate 36 none).set i0
                     (some (.sub nb))) 2 0)
             else
               .ok (.node lvl (((List.replicate 36 none).set i0
                 (some (.entry t0 a0))).set i1 (some (.entry t1 a1))) 2 0) :
        Except Err Book) := by
  rw [collide.eq_def]
  split
  · next heq => rw [h0] at heq; cases heq
  · next c0' heq => rw [h0] at heq; cases heq; rfl

end RunLemmas

/-! ## Atomicity of failed mutations -/

theorem setItem_error_unchanged (b : Book) (tx : Tx) (amt : Int) :
    ∀ e, (setItem b tx amt).2 = Except.error e → (setItem b tx amt).1 = b := by
  induction b, tx, amt using setItem.induct with
  | case1 tx amt l a a1 a2 hsig =>
    intro e h; rw [setItem_run_sigNone hsig]
  | case2 tx amt l a a1 a2 c hsig hpi =>
    intro e h; rw [setItem_run_badChar hsig hpi]
  | case3 tx amt l a a1 a2 c hsig i hpi hgd =>
    intro e h; rw [setItem_run_empty hsig hpi hgd] at h; simp at h
  | case4 tx amt l a a1 a2 c hsig i hpi t0 a0 hgd htid hamt =>
    intro e h; rw [setItem_run_conflict hsig hpi hgd htid hamt] at h; simp at h
  | case5 tx amt l a a1 a2 c hsig i hpi t0 a0 hgd htid hamt =>
    intro e h
    rw [setItem_run_same hsig hpi hgd htid (not_ne_iff.mp hamt)] at h
    simp at h
  | case6 tx amt l a a1 a2 c hsig i hpi t0 a0 hgd htid e0 hcol =>
    intro e h
    rw [setItem_run_collide hsig hpi hgd htid, hcol]
  | case7 tx amt l a a1 a2 c hsig i hpi t0 a0 hgd htid nb hcol =>
    intro e h
    rw [setItem_run_collide hsig hpi hgd htid, hcol] at h
    simp at h
  | case8 tx amt l a a1 a2 c hsig i hpi b' hgd b2 e0 hrec ih =>
    intro e h
    have hb2 : b2 = b' := by
      have h2 := ih e0
      rw [hrec] at h2
      exact h2 rfl
    rw [setItem_run_sub_err hsig hpi hgd hrec]
    subst hb2
    have hset : a.set i (some (.sub b2)) = a :=
      set_get?_self a i (some (.sub b2)) (getD_none_eq_some.mp hgd)
    rw [hset]
  | case9 tx amt l a a1 a2 c hsig i hpi b' hgd b2 r hrec hamt ih =>
    intro e h
    rw [setItem_run_sub_ok_t hsig hpi hgd hrec hamt] at h
    simp at h
  | case10 tx amt l a a1 a2 c hsig i hpi b' hgd b2 r hrec hamt ih =>
    intro e h
    rw [setItem_run_sub_ok_f hsig hpi hgd hrec (not_ne_iff.mp hamt)] at h
    simp at h

theorem delItem_error_unchanged (b : Book) (tx : Tx) :
    ∀ e, (delItem b tx).2 = some e → (delItem b tx).1 = b := by
  induction b, tx using delItem.induct with
  | case1 tx l a a1 a2 hsig =>
    intro e h; rw [delItem_run_sigNone hsig]
  | case2 tx l a a1 a2 c hsig hpi =>
    intro e h; rw [delItem_run_badChar hsig hpi]
  | case3 tx l a a1 a2 c hsig i hpi hgd =>
    intro e h; rw [delItem_run_empty hsig hpi hgd]
  | case4 tx l a a1 a2 c hsig i hpi t0 a0 hgd htid =>
    intro e h; rw [delItem_run_hit hsig hpi hgd htid] at h; simp at h
  | case5 tx l a a1 a2 c hsig i hpi t0 a0 hgd htid =>
    intro e h; rw [delItem_run_miss hsig hpi hgd htid]
  | case6 tx l a a1 a2 c hsig i hpi b' hgd b2 e0 hrec ih =>
    intro e h
    have hb2 : b2 = b' := by
      have h2 := ih e0
      rw [hrec] at h2
      exact h2 rfl
    rw [delItem_run_sub_err hsig hpi hgd hrec]
    subst hb2
    have hset : a.set i (some (.sub b2)) = a :=
      set_get?_self a i (some (.sub b2)) (getD_none_eq_some.mp hgd)
    rw [hset]
  | case7 tx l a a1 a2 c hsig i hpi b' hgd b2 hrec hc1 pg hfs ih =>
    intro e h
    rw [delItem_run_sub_collapse hsig hpi hgd hrec hc1 hfs] at h
    simp at h
  | case8 tx l a a1 a2 c hsig i hpi b' hgd b2 hrec hc1 hfs ih =>
    intro e h
    rw [delItem.eq_def] at h
    simp only [hsig, hpi] at h
    split at h
    · next heq => rw [hgd] at heq; cases heq
    · next heq => rw [hgd] at heq; cases heq
    · next heq =>
      rw [hgd] at heq; cases heq
      simp only [hrec, if_pos hc1, hfs] at h
      cases h
  | case9 tx l a a1 a2 c hsig i hpi b' hgd b2 hrec hc1 ih =>
    intro e h
    rw [delItem_run_sub_nocollapse hsig hpi hgd hrec hc1] at h
    simp at h

/-! ## Locating a stored key -/

theorem keyIdx_run (t : Tx) (l : Nat) {c : Char} (hsig : t.sig.get? l = some c) :
    keyIdx t l = pageIndex c := by
  unfold keyIdx
  rw [hsig]

theorem keyIdx_none (t : Tx) (l : Nat) (hsig : t.sig.get? l = none) :
    keyIdx t l = none := by
  unfold keyIdx
  rw [hsig]

theorem sEnt_entry (t : Tx) (a : Int) : sEnt (some (.entry t a)) = [(t, a)] := by
  simp [sEnt, pageEntries]

theorem sEnt_sub (b : Book) : sEnt (some (.sub b)) = bookEntries b := by
  simp [sEnt, pageEntries]

theorem sErr_entry (t : Tx) (a : Int) : sErr (some (.entry t a)) = 0 := by
  simp [sErr, pageErr]

theorem sErr_sub (b : Book) : sErr (some (.sub b)) = bookErr b := by
  simp [sErr, pageErr]

/-- A stored pair pins down the page that holds it, the index of that
page, and the navigation character of its key. -/
theorem locate_key {l : Nat} {a : List (Option Page)} {tc : Int} {ec : Nat}
    {k : Tx} {v1 : Int} (hg : goodB (.node l a tc ec) = true)
    (hmem : (k, v1) ∈ bookEntries (.node l a tc ec)) :
    ∃ j p, a.get? j = some (some p) ∧ (k, v1) ∈ pageEntries p ∧
      keyIdx k l = some j ∧ slotOkG l j (some p) ∧ j < a.length := by
  rw [bookEntries_node] at hmem
  obtain ⟨j, p, hjget, hpmem⟩ := mem_entries_locate hmem
  have hok : slotOkG l j (some p) := by
    have := goodSlots_get a l 0 j (some p) (goodB_node.mp hg).2 hjget
    simpa using this
  have hjlt : j < a.length := by
    obtain ⟨hlt, -⟩ := List.get?_eq_some.mp hjget
    exact hlt
  refine ⟨j, p, hjget, hpmem, ?_, hok, hjlt⟩
  cases p with
  | entry t av =>
    rw [pageEntries_entry] at hpmem
    simp only [List.mem_singleton, Prod.mk.injEq] at hpmem
    obtain ⟨rfl, rfl⟩ := hpmem
    exact hok
  | sub b' =>
    rw [pageEntries_sub] at hpmem
    exact hok.2.2 (k, v1) hpmem

/-! ## Conflict accounting -/

theorem conflict_main (b : Book) (k : Tx) (v2 : Int) :
    ∀ v1, goodB b = true → (k, v1) ∈ bookEntries b → v2 ≠ v1 →
      (∃ r, (setItem b k v2).2 = Except.ok r) ∧
      getItem (setItem b k v2).1 k = .ok v1 ∧
      bookErr (setItem b k v2).1 = bookErr b + 1 := by
  induction b, k, v2 using setItem.induct with
  | case1 k v2 l a a1 a2 hsig =>
    intro v1 hg hmem hne
    obtain ⟨j, p, hjget, hpmem, hkidx, hok, hjlt⟩ := locate_key hg hmem
    rw [keyIdx_none k l hsig] at hkidx
    cases hkidx
  | case2 k v2 l a a1 a2 c hsig hpi =>
    intro v1 hg hmem hne
    obtain ⟨j, p, hjget, hpmem, hkidx, hok, hjlt⟩ := locate_key hg hmem
    rw [keyIdx_run k l hsig, hpi] at hkidx
    cases hkidx
  | case3 k v2 l a a1 a2 c hsig i hpi hgd =>
    intro v1 hg hmem hne
    obtain ⟨j, p, hjget, hpmem, hkidx, hok, hjlt⟩ := locate_key hg hmem
    rw [keyIdx_run k l hsig, hpi] at hkidx
    cases hkidx
    rw [getD_of_get? hjget] at hgd
    cases hgd
  | case4 k v2 l a a1 a2 c hsig i hpi t0 a0 hgd htid hamt =>
    intro v1 hg hmem hne
    obtain ⟨j, p, hjget, hpmem, hkidx, hok, hjlt⟩ := locate_key hg hmem
    rw [keyIdx_run k l hsig, hpi] at hkidx
    cases hkidx
    rw [getD_of_get? hjget] at hgd
    cases hgd
    rw [pageEntries_entry] at hpmem
    simp only [List.mem_singleton, Prod.mk.injEq] at hpmem
    obtain ⟨rfl, rfl⟩ := hpmem
    rw [setItem_run_conflict hsig hpi (getD_of_get? hjget) htid hamt]
    refine ⟨⟨false, rfl⟩, ?_, ?_⟩
    · rw [getItem_run_entry hsig hpi (getD_of_get? hjget), if_pos htid]
    · rw [bookErr_node, bookErr_node]
      omega
  | case5 k v2 l a a1 a2 c hsig i hpi t0 a0 hgd htid hamt =>
    intro v1 hg hmem hne
    obtain ⟨j, p, hjget, hpmem, hkidx, hok, hjlt⟩ := locate_key hg hmem
    rw [keyIdx_run k l hsig, hpi] at hkidx
    cases hkidx
    rw [getD_of_get? hjget] at hgd
    cases hgd
    rw [pageEntries_entry] at hpmem
    simp only [List.mem_singleton, Prod.mk.injEq] at hpmem
    obtain ⟨rfl, rfl⟩ := hpmem
    exact absurd (not_ne_iff.mp hamt).symm hne
  | case6 k v2 l a a1 a2 c hsig i hpi t0 a0 hgd htid e0 hcol =>
    intro v1 hg hmem hne
    obtain ⟨j, p, hjget, hpmem, hkidx, hok, hjlt⟩ := locate_key hg hmem
    rw [keyIdx_run k l hsig, hpi] at hkidx
    cases hkidx
    rw [getD_of_get? hjget] at hgd
    cases hgd
    rw [pageEntries_entry] at hpmem
    simp only [List.mem_singleton, Prod.mk.injEq] at hpmem
    obtain ⟨rfl, rfl⟩ := hpmem
    exact absurd rfl htid
  | case7 k v2 l a a1 a2 c hsig i hpi t0 a0 hgd htid nb hcol =>
    intro v1 hg hmem hne
    obtain ⟨j, p, hjget, hpmem, hkidx, hok, hjlt⟩ := locate_key hg hmem
    rw [keyIdx_run k l hsig, hpi] at hkidx
    cases hkidx
    rw [getD_of_get? hjget] at hgd
    cases hgd
    rw [pageEntries_entry] at hpmem
    simp only [List.mem_singleton, Prod.mk.injEq] at hpmem
    obtain ⟨rfl, rfl⟩ := hpmem
    exact absurd rfl htid
  | case8 k v2 l a a1 a2 c hsig i hpi b' hgd b2 e0 hrec ih =>
    intro v1 hg hmem hne
    obtain ⟨j, p, hjget, hpmem, hkidx, hok, hjlt⟩ := locate_key hg hmem
    rw [keyIdx_run k l hsig, hpi] at hkidx
    cases hkidx
    rw [getD_of_get? hjget] at hgd
    cases hgd
    rw [pageEntries_sub] at hpmem
    obtain ⟨⟨r, hr⟩, -, -⟩ := ih v1 hok.2.1 hpmem hne
    rw [hrec] at hr
    cases hr
  | case9 k v2 l a a1 a2 c hsig i hpi b' hgd b2 r hrec hamt ih =>
    intro v1 hg hmem hne
    obtain ⟨j, p, hjget, hpmem, hkidx, hok, hjlt⟩ := locate_key hg hmem
    rw [keyIdx_run k l hsig, hpi] at hkidx
    cases hkidx
    rw [getD_of_get? hjget] at hgd
    cases hgd
    rw [pageEntries_sub] at hpmem
    obtain ⟨-, hget, herr⟩ := ih v1 hok.2.1 hpmem hne
    rw [hrec] at hget herr
    have herr2 : bookErr b2 = bookErr b' + 1 := herr
    rw [setItem_run_sub_ok_t hsig hpi (getD_of_get? hjget) hrec hamt]
    refine ⟨⟨true, rfl⟩, ?_, ?_⟩
    · rw [getItem_run_sub hsig hpi (getD_set_self (some (.sub b2)) hjlt)]
      exact hget
    · rw [bookErr_node, bookErr_node,
        slotsErr_set a i (some (.sub b2)) hjlt,
        slotsErr_decomp a i (some (.sub b')) hjget,
        sErr_sub, sErr_sub]
      omega
  | case10 k v2 l a a1 a2 c hsig i hpi b' hgd b2 r hrec hamt ih =>
    intro v1 hg hmem hne
    obtain ⟨j, p, hjget, hpmem, hkidx, hok, hjlt⟩ := locate_key hg hmem
    rw [keyIdx_run k l hsig, hpi] at hkidx
    cases hkidx
    rw [getD_of_get? hjget] at hgd
    cases hgd
    rw [pageEntries_sub] at hpmem
    obtain ⟨-, hget, herr⟩ := ih v1 hok.2.1 hpmem hne
    rw [hrec] at hget herr
    have herr2 : bookErr b2 = bookErr b' + 1 := herr
    rw [setItem_run_sub_ok_f hsig hpi (getD_of_get? hjget) hrec (not_ne_iff.mp hamt)]
    refine ⟨⟨false, rfl⟩, ?_, ?_⟩
    · rw [getItem_run_sub hsig hpi (getD_set_self (some (.sub b2)) hjlt)]
      exact hget
    · rw [bookErr_node, bookErr_node,
        slotsErr_set a i (some (.sub b2)) hjlt,
        slotsErr_decomp a i (some (.sub b')) hjget,
        sErr_sub, sErr_sub]
      omega

/-! ## Round trip for freshly inserted keys -/

theorem collide_ok_get (lvl : Nat) (t0 : Tx) (a0 : Int) (t1 : Tx) (a1 : Int) :
    ∀ nb, collide lvl t0 a0 t1 a1 = .ok nb → ¬t0.tid = t1.tid →
      getItem nb t1 = .ok a1 ∧ nb.level = lvl := by
  induction lvl, t0, a0, t1, a1 using collide.induct with
  | case1 lvl t0 a0 t1 a1 h0 =>
    intro nb h htid
    rw [collide_run_sig0None h0] at h
    cases h
  | case2 lvl t0 a0 t1 a1 c0 h0 hp0 =>
    intro nb h htid
    rw [collide_run_step h0] at h
    simp only [hp0] at h
    cases h
  | case3 lvl t0 a0 t1 a1 c0 h0 i0 hp0 h1 =>
    intro nb h htid
    rw [collide_run_step h0] at h
    simp only [hp0, h1] at h
    cases h
  | case4 lvl t0 a0 t1 a1 c0 h0 i0 hp0 c1 h1 hp1 =>
    intro nb h htid
    rw [collide_run_step h0] at h
    simp only [hp0, h1, hp1] at h
    cases h
  | case5 lvl t0 a0 t1 a1 c0 h0 c1 h1 i1 hp1 htid0 hp0 =>
    intro nb h htid
    exact absurd htid0 htid
  | case6 lvl t0 a0 t1 a1 c0 h0 c1 h1 i1 hp1 htid0 e hcol hp0 ih =>
    intro nb h htid
    rw [collide_run_step h0] at h
    simp only [hp0, h1, hp1, if_true, if_neg htid0, hcol] at h
    cases h
  | case7 lvl t0 a0 t1 a1 c0 h0 c1 h1 i1 hp1 htid0 nb' hcol hp0 ih =>
    intro nb h htid
    rw [collide_run_step h0] at h
    simp only [hp0, h1, hp1, if_true, if_neg htid0, hcol, Except.ok.injEq] at h
    subst h
    constructor
    · have hlen : i1 < ((List.replicate 36 none : List (Option Page)).length) := by
        rw [List.length_replicate]
        exact pageIndex_lt_36 hp1
      rw [getItem_run_sub h1 hp1 (getD_set_self (some (.sub nb')) hlen)]
      exact (ih nb' hcol htid0).1
    · rfl
  | case8 lvl t0 a0 t1 a1 c0 h0 i0 hp0 c1 h1 i1 hp1 hne =>
    intro nb h htid
    rw [collide_run_step h0] at h
    simp only [hp0, h1, hp1, if_neg hne, Except.ok.injEq] at h
    subst h
    constructor
    · have hlen : i1 <
          (((List.replicate 36 none : List (Option Page)).set i0
            (some (.entry t0 a0))).length) := by
        rw [List.length_set, List.length_replicate]
        exact pageIndex_lt_36 hp1
      rw [getItem_run_entry h1 hp1 (getD_set_self (some (.entry t1 a1)) hlen),
        if_pos rfl]
    · rfl

theorem insert_fresh_main (b : Book) (k : Tx) (v : Int) :
    goodB b = true → (∀ x ∈ bookEntries b, x.1.tid ≠ k.tid) →
    ∀ b2 r, setItem b k v = (b2, .ok r) → getItem b2 k = .ok v := by
  induction b, k, v using setItem.induct with
  | case1 k v l a a1 a2 hsig =>
    intro hg hfresh b2 r hset
    rw [setItem_run_sigNone hsig] at hset
    simp at hset
  | case2 k v l a a1 a2 c hsig hpi =>
    intro hg hfresh b2 r hset
    rw [setItem_run_badChar hsig hpi] at hset
    simp at hset
  | case3 k v l a a1 a2 c hsig i hpi hgd =>
    intro hg hfresh b2 r hset
    rw [setItem_run_empty hsig hpi hgd] at hset
    cases hset
    have hlen : i < a.length := by
      rw [(goodB_node.mp hg).1]
      exact pageIndex_lt_36 hpi
    rw [getItem_run_entry hsig hpi (getD_set_self (some (.entry k v)) hlen),
      if_pos rfl]
  | case4 k v l a a1 a2 c hsig i hpi t0 a0 hgd htid hamt =>
    intro hg hfresh b2 r hset
    have hmem : (t0, a0) ∈ bookEntries (Book.node l a a1 a2) := by
      rw [bookEntries_node]
      exact mem_slots_of_page (getD_none_eq_some.mp hgd)
        (by rw [pageEntries_entry]; exact List.mem_singleton.mpr rfl)
    exact absurd htid (hfresh (t0, a0) hmem)
  | case5 k v l a a1 a2 c hsig i hpi t0 a0 hgd htid hamt =>
    intro hg hfresh b2 r hset
    have hmem : (t0, a0) ∈ bookEntries (Book.node l a a1 a2) := by
      rw [bookEntries_node]
      exact mem_slots_of_page (getD_none_eq_some.mp hgd)
        (by rw [pageEntries_entry]; exact List.mem_singleton.mpr rfl)
    exact absurd htid (hfresh (t0, a0) hmem)
  | case6 k v l a a1 a2 c hsig i hpi t0 a0 hgd htid e0 hcol =>
    intro hg hfresh b2 r hset
    rw [setItem_run_collide hsig hpi hgd htid, hcol] at hset
    simp at hset
  | case7 k v l a a1 a2 c hsig i hpi t0 a0 hgd htid nb hcol =>
    intro hg hfresh b2 r hset
    rw [setItem_run_collide hsig hpi hgd htid, hcol] at hset
    cases hset
    have hlen : i < a.length := by
      rw [(goodB_node.mp hg).1]
      exact pageIndex_lt_36 hpi
    rw [getItem_run_sub hsig hpi (getD_set_self (some (.sub nb)) hlen)]
    exact (collide_ok_get (l + 1) t0 a0 k v nb hcol htid).1
  | case8 k v l a a1 a2 c hsig i hpi b' hgd b2 e0 hrec ih =>
    intro hg hfresh b2x r hset
    rw [setItem_run_sub_err hsig hpi hgd hrec] at hset
    simp at hset
  | case9 k v l a a1 a2 c hsig i hpi b' hgd b2 r hrec hamt ih =>
    intro hg hfresh b2x rx hset
    rw [setItem_run_sub_ok_t hsig hpi hgd hrec hamt] at hset
    cases hset
    have hlen : i < a.length := by
      rw [(goodB_node.mp hg).1]
      exact pageIndex_lt_36 hpi
    rw [getItem_run_sub hsig hpi (getD_set_self (some (.sub b2)) hlen)]
    have hok : slotOkG l i (some (.sub b')) := by
      have := goodSlots_get a l 0 i (some (.sub b'))
        (goodB_node.mp hg).2 (getD_none_eq_some.mp hgd)
      simpa using this
    refine ih hok.2.1 ?_ b2 r hrec
    intro x hx
    exact hfresh x (by
      rw [bookEntries_node]
      exact mem_slots_of_page (getD_none_eq_some.mp hgd)
        (by rw [pageEntries_sub]; exact hx))
  | case10 k v l a a1 a2 c hsig i hpi b' hgd b2 r hrec hamt ih =>
    intro hg hfresh b2x rx hset
    rw [setItem_run_sub_ok_f hsig hpi hgd hrec (not_ne_iff.mp hamt)] at hset
    cases hset
    have hlen : i < a.length := by
      rw [(goodB_node.mp hg).1]
      exact pageIndex_lt_36 hpi
    rw [getItem_run_sub hsig hpi (getD_set_self (some (.sub b2)) hlen)]
    have hok : slotOkG l i (some (.sub b')) := by
      have := goodSlots_get a l 0 i (some (.sub b'))
        (goodB_node.mp hg).2 (getD_none_eq_some.mp hgd)
      simpa using this
    refine ih hok.2.1 ?_ b2 r hrec
    intro x hx
    exact hfresh x (by
      rw [bookEntries_node]
      exact mem_slots_of_page (getD_none_eq_some.mp hgd)
        (by rw [pageEntries_sub]; exact hx))

/-! ## Identical full signatures exhaust the depth -/

theorem keyIdx_congr {t1 t2 : Tx} (l : Nat) (h : t1.sig = t2.sig) :
    keyIdx t1 l = keyIdx t2 l := by
  unfold keyIdx
  rw [h]

theorem collide_equal_sigs (lvl : Nat) (t0 : Tx) (a0 : Int) (t1 : Tx)
    (a1 : Int) : t0.sig = t1.sig → ¬t0.tid = t1.tid →
    (∀ c ∈ t0.sig, (pageIndex c).isSome = true) →
    collide lvl t0 a0 t1 a1 = .error .outOfRange := by
  induction lvl, t0, a0, t1, a1 using collide.induct with
  | case1 lvl t0 a0 t1 a1 h0 =>
    intro hsig htid hleg
    exact collide_run_sig0None h0
  | case2 lvl t0 a0 t1 a1 c0 h0 hp0 =>
    intro hsig htid hleg
    have := hleg c0 (List.get?_mem h0)
    rw [hp0] at this
    cases this
  | case3 lvl t0 a0 t1 a1 c0 h0 i0 hp0 h1 =>
    intro hsig htid hleg
    rw [hsig] at h0
    rw [h0] at h1
    cases h1
  | case4 lvl t0 a0 t1 a1 c0 h0 i0 hp0 c1 h1 hp1 =>
    intro hsig htid hleg
    have hc : c1 ∈ t0.sig := by
      rw [hsig]
      exact List.get?_mem h1
    have := hleg c1 hc
    rw [hp1] at this
    cases this
  | case5 lvl t0 a0 t1 a1 c0 h0 c1 h1 i1 hp1 htid0 hp0 =>
    intro hsig htid hleg
    exact absurd htid0 htid
  | case6 lvl t0 a0 t1 a1 c0 h0 c1 h1 i1 hp1 htid0 e hcol hp0 ih =>
    intro hsig htid hleg
    rw [collide_run_step h0]
    simp only [hp0, h1, hp1, if_true, if_neg htid0, ih hsig htid hleg]
  | case7 lvl t0 a0 t1 a1 c0 h0 c1 h1 i1 hp1 htid0 nb' hcol hp0 ih =>
    intro hsig htid hleg
    rw [ih hsig htid hleg] at hcol
    cases hcol
  | case8 lvl t0 a0 t1 a1 c0 h0 i0 hp0 c1 h1 i1 hp1 hne =>
    intro hsig htid hleg
    rw [hsig] at h0
    rw [h0] at h1
    cases h1
    rw [hp0] at hp1
    cases hp1
    exact absurd rfl hne

theorem identical_sig_main (b : Book) (k2 : Tx) (v : Int) :
    ∀ k1 a1, goodB b = true → (k1, a1) ∈ bookEntries b → k2.sig = k1.sig →
    ¬k2.tid = k1.tid → (∀ c ∈ k1.sig, (pageIndex c).isSome = true) →
    (setItem b k2 v).2 = .error .outOfRange := by
  induction b, k2, v using setItem.induct with
  | case1 k2 v l a a1x a2x hsig =>
    intro k1 a1 hg hmem hseq htid hleg
    obtain ⟨j, p, hjget, hpmem, hkidx, hok, hjlt⟩ := locate_key hg hmem
    rw [← keyIdx_congr l hseq, keyIdx_none k2 l hsig] at hkidx
    cases hkidx
  | case2 k2 v l a a1x a2x c hsig hpi =>
    intro k1 a1 hg hmem hseq htid hleg
    obtain ⟨j, p, hjget, hpmem, hkidx, hok, hjlt⟩ := locate_key hg hmem
    rw [← keyIdx_congr l hseq, keyIdx_run k2 l hsig, hpi] at hkidx
    cases hkidx
  | case3 k2 v l a a1x a2x c hsig i hpi hgd =>
    intro k1 a1 hg hmem hseq htid hleg
    obtain ⟨j, p, hjget, hpmem, hkidx, hok, hjlt⟩ := locate_key hg hmem
    rw [← keyIdx_congr l hseq, keyIdx_run k2 l hsig, hpi] at hkidx
    cases hkidx
    rw [getD_of_get? hjget] at hgd
    cases hgd
  | case4 k2 v l a a1x a2x c hsig i hpi t0 a0 hgd htid0 hamt =>
    intro k1 a1 hg hmem hseq htid hleg
    obtain ⟨j, p, hjget, hpmem, hkidx, hok, hjlt⟩ := locate_key hg hmem
    rw [← keyIdx_congr l hseq, keyIdx_run k2 l hsig, hpi] at hkidx
    cases hkidx
    rw [getD_of_get? hjget] at hgd
    cases hgd
    rw [pageEntries_entry] at hpmem
    simp only [List.mem_singleton, Prod.mk.injEq] at hpmem
    obtain ⟨rfl, rfl⟩ := hpmem
    exact absurd htid0.symm htid
  | case5 k2 v l a a1x a2x c hsig i hpi t0 a0 hgd htid0 hamt =>
    intro k1 a1 hg hmem hseq htid hleg
    obtain ⟨j, p, hjget, hpmem, hkidx, hok, hjlt⟩ := locate_key hg hmem
    rw [← keyIdx_congr l hseq, keyIdx_run k2 l hsig, hpi] at hkidx
    cases hkidx
    rw [getD_of_get? hjget] at hgd
    cases hgd
    rw [pageEntries_entry] at hpmem
    simp only [List.mem_singleton, Prod.mk.injEq] at hpmem
    obtain ⟨rfl, rfl⟩ := hpmem
    exact absurd htid0.symm htid
  | case6 k2 v l a a1x a2x c hsig i hpi t0 a0 hgd htid0 e0 hcol =>
    intro k1 a1 hg hmem hseq htid hleg
    obtain ⟨j, p, hjget, hpmem, hkidx, hok, hjlt⟩ := locate_key hg hmem
    rw [← keyIdx_congr l hseq, keyIdx_run k2 l hsig, hpi] at hkidx
    cases hkidx
    rw [getD_of_get? hjget] at hgd
    cases hgd
    rw [pageEntries_entry] at hpmem
    simp only [List.mem_singleton, Prod.mk.injEq] at hpmem
    obtain ⟨rfl, rfl⟩ := hpmem
    have hcol2 : collide (l + 1) k1 a1 k2 v = Except.error .outOfRange :=
      collide_equal_sigs (l + 1) k1 a1 k2 v hseq.symm
        (fun hx => htid hx.symm) hleg
    rw [hcol2] at hcol
    cases hcol
    rw [setItem_run_collide hsig hpi (getD_of_get? hjget) htid0, hcol2]
  | case7 k2 v l a a1x a2x c hsig i hpi t0 a0 hgd htid0 nb hcol =>
    intro k1 a1 hg hmem hseq htid hleg
    obtain ⟨j, p, hjget, hpmem, hkidx, hok, hjlt⟩ := locate_key hg hmem
    rw [← keyIdx_congr l hseq, keyIdx_run k2 l hsig, hpi] at hkidx
    cases hkidx
    rw [getD_of_get? hjget] at hgd
    cases hgd
    rw [pageEntries_entry] at hpmem
    simp only [List.mem_singleton, Prod.mk.injEq] at hpmem
    obtain ⟨rfl, rfl⟩ := hpmem
    have hcol2 : collide (l + 1) k1 a1 k2 v = Except.error .outOfRange :=
      collide_equal_sigs (l + 1) k1 a1 k2 v hseq.symm
        (fun hx => htid hx.symm) hleg
    rw [hcol2] at hcol
    cases hcol
  | case8 k2 v l a a1x a2x c hsig i hpi b' hgd b2 e0 hrec ih =>
    intro k1 a1 hg hmem hseq htid hleg
    obtain ⟨j, p, hjget, hpmem, hkidx, hok, hjlt⟩ := locate_key hg hmem
    rw [← keyIdx_congr l hseq, keyIdx_run k2 l hsig, hpi] at hkidx
    cases hkidx
    rw [getD_of_get? hjget] at hgd
    cases hgd
    rw [pageEntries_sub] at hpmem
    have hsub := ih k1 a1 hok.2.1 hpmem hseq htid hleg
    rw [hrec] at hsub
    cases hsub
    rw [setItem_run_sub_err hsig hpi (getD_of_get? hjget) hrec]
  | case9 k2 v l a a1x a2x c hsig i hpi b' hgd b2 r hrec hamt ih =>
    intro k1 a1 hg hmem hseq htid hleg
    obtain ⟨j, p, hjget, hpmem, hkidx, hok, hjlt⟩ := locate_key hg hmem
    rw [← keyIdx_congr l hseq, keyIdx_run k2 l hsig, hpi] at hkidx
    cases hkidx
    rw [getD_of_get? hjget] at hgd
    cases hgd
    rw [pageEntries_sub] at hpmem
    have hsub := ih k1 a1 hok.2.1 hpmem hseq htid hleg
    rw [hrec] at hsub
    cases hsub
  | case10 k2 v l a a1x a2x c hsig i hpi b' hgd b2 r hrec hamt ih =>
    intro k1 a1 hg hmem hseq htid hleg
    obtain ⟨j, p, hjget, hpmem, hkidx, hok, hjlt⟩ := locate_key hg hmem
    rw [← keyIdx_congr l hseq, keyIdx_run k2 l hsig, hpi] at hkidx
    cases hkidx
    rw [getD_of_get? hjget] at hgd
    cases hgd
    rw [pageEntries_sub] at hpmem
    have hsub := ih k1 a1 hok.2.1 hpmem hseq htid hleg
    rw [hrec] at hsub
    cases hsub

/-! ## Iteration order -/

/-- The rank of a character under the alphabet ordering of
`LEGAL_CHARACTERS`: a = 0 … z = 25, 0 = 26 … 9 = 35. -/
def rankOf (c : Char) : Nat := (pageIndex c).getD 36

/-- Strict rank order on characters. -/
def rltc (c1 c2 : Char) : Prop := rankOf c1 < rankOf c2

theorem lex_rltc_irrefl : ∀ s : List Char, ¬List.Lex rltc s s := by
  intro s
  induction s with
  | nil => intro h; cases h
  | cons c rest ih =>
    intro h
    cases h with
    | cons h' => exact ih h'
    | rel h' => exact absurd h' (lt_irrefl _)

theorem rankOf_of_pageIndex {c : Char} {i : Nat} (h : pageIndex c = some i) :
    rankOf c = i := by
  unfold rankOf
  rw [h]
  rfl

theorem drop_cons_of_keyIdx {t : Tx} {lvl i : Nat}
    (h : keyIdx t lvl = some i) :
    ∃ c, t.sig.drop lvl = c :: t.sig.drop (lvl + 1) ∧ pageIndex c = some i := by
  unfold keyIdx at h
  cases hsig : t.sig.get? lvl with
  | none => simp only [hsig] at h; cases h
  | some c =>
    simp only [hsig] at h
    refine ⟨c, ?_, h⟩
    obtain ⟨hlt, hget⟩ := List.get?_eq_some.mp hsig
    rw [List.drop_eq_get_cons hlt, hget]

theorem Book.level_node (l : Nat) (a : List (Option Page)) (tc : Int)
    (ec : Nat) : (Book.node l a tc ec).level = l := rfl

theorem Book.pages_node (l : Nat) (a : List (Option Page)) (tc : Int)
    (ec : Nat) : (Book.node l a tc ec).pages = a := rfl

theorem Book.tcount_node (l : Nat) (a : List (Option Page)) (tc : Int)
    (ec : Nat) : (Book.node l a tc ec).tcount = tc := rfl

theorem sizeOf_tail_lt (hd : Option Page) (tl : List (Option Page)) :
    sizeOf tl < sizeOf (hd :: tl) := by
  simp

theorem sizeOf_head_sub_lt (b' : Book) (tl : List (Option Page)) :
    sizeOf b' < sizeOf (some (Page.sub b') :: tl) := by
  simp
  omega

theorem slots_pairwise : ∀ (l : List (Option Page)) (lvl k : Nat),
    (∀ b' : Book, sizeOf b' < sizeOf l → goodB b' = true →
      (bookEntries b').Pairwise (fun e1 e2 =>
        List.Lex rltc (e1.1.sig.drop b'.level) (e2.1.sig.drop b'.level))) →
    goodSlots lvl k l = true →
    (slotsEntries l).Pairwise (fun e1 e2 =>
      List.Lex rltc (e1.1.sig.drop lvl) (e2.1.sig.drop lvl)) ∧
    (∀ e ∈ slotsEntries l, ∃ i, k ≤ i ∧ keyIdx e.1 lvl = some i) := by
  intro l
  induction l with
  | nil =>
    intro lvl k cb hg
    constructor
    · rw [slotsEntries_nil]; exact List.Pairwise.nil
    · intro e he; rw [slotsEntries_nil] at he; cases he
  | cons hd tl ih =>
    intro lvl k cb hg
    have cbtl : ∀ b' : Book, sizeOf b' < sizeOf tl → goodB b' = true →
        (bookEntries b').Pairwise (fun e1 e2 =>
          List.Lex rltc (e1.1.sig.drop b'.level) (e2.1.sig.drop b'.level)) :=
      fun b' hlt hg' => cb b' (lt_trans hlt (sizeOf_tail_lt hd tl)) hg'
    match hd with
    | none =>
      have hrest : goodSlots lvl (k + 1) tl = true := by
        simpa [goodSlots] using hg
      obtain ⟨hp, hi⟩ := ih lvl (k + 1) cbtl hrest
      rw [slotsEntries_cons]
      constructor
      · simpa [sEnt] using hp
      · intro e he
        simp only [sEnt, List.nil_append] at he
        obtain ⟨i, hki, hkidx⟩ := hi e he
        exact ⟨i, by omega, hkidx⟩
    | some (.entry t av) =>
      simp only [goodSlots, Bool.and_eq_true, beq_iff_eq] at hg
      obtain ⟨hkt, hrest⟩ := hg
      obtain ⟨hp, hi⟩ := ih lvl (k + 1) cbtl hrest
      rw [slotsEntries_cons, sEnt_entry]
      constructor
      · refine List.Pairwise.cons ?_ hp
        intro e2 he2
        obtain ⟨i2, hki2, hkidx2⟩ := hi e2 he2
        obtain ⟨c1, hd1, hr1⟩ := drop_cons_of_keyIdx hkt
        obtain ⟨c2, hd2, hr2⟩ := drop_cons_of_keyIdx hkidx2
        rw [hd1, hd2]
        refine List.Lex.rel ?_
        unfold rltc
        rw [rankOf_of_pageIndex hr1, rankOf_of_pageIndex hr2]
        omega
      · intro e he
        rcases List.mem_cons.mp he with rfl | he2
        · exact ⟨k, le_refl k, hkt⟩
        · obtain ⟨i, hki, hkidx⟩ := hi e he2
          exact ⟨i, by omega, hkidx⟩
    | some (.sub b') =>
      simp only [goodSlots, Bool.and_eq_true, beq_iff_eq, List.all_eq_true] at hg
      obtain ⟨⟨⟨hlev, hgb⟩, hkeys⟩, hrest⟩ := hg
      have hkeys' : ∀ e ∈ bookEntries b', keyIdx e.1 lvl = some k := by
        intro e he
        simpa using hkeys e he
      obtain ⟨hp, hi⟩ := ih lvl (k + 1) cbtl hrest
      have hinner := cb b' (sizeOf_head_sub_lt b' tl) hgb
      rw [hlev] at hinner
      rw [slotsEntries_cons, sEnt_sub]
      constructor
      · rw [List.pairwise_append]
        refine ⟨?_, hp, ?_⟩
        · refine List.Pairwise.imp_of_mem ?_ hinner
          intro e1 e2 he1 he2 hlex
          obtain ⟨c1, hd1, hr1⟩ := drop_cons_of_keyIdx (hkeys' e1 he1)
          obtain ⟨c2, hd2, hr2⟩ := drop_cons_of_keyIdx (hkeys' e2 he2)
          have hc : c1 = c2 := pageIndex_inj hr1 hr2
          rw [hd1, hd2, hc]
          exact List.Lex.cons hlex
        · intro e1 he1 e2 he2
          obtain ⟨i2, hki2, hkidx2⟩ := hi e2 he2
          obtain ⟨c1, hd1, hr1⟩ := drop_cons_of_keyIdx (hkeys' e1 he1)
          obtain ⟨c2, hd2, hr2⟩ := drop_cons_of_keyIdx hkidx2
          rw [hd1, hd2]
          refine List.Lex.rel ?_
          unfold rltc
          rw [rankOf_of_pageIndex hr1, rankOf_of_pageIndex hr2]
          omega
      · intro e he
        rcases List.mem_append.mp he with he1 | he2
        · exact ⟨k, le_refl k, hkeys' e he1⟩
        · obtain ⟨i, hki, hkidx⟩ := hi e he2
          exact ⟨i, by omega, hkidx⟩

theorem entries_pairwise_fuel : ∀ (n : Nat) (b : Book), sizeOf b ≤ n →
    goodB b = true →
    (bookEntries b).Pairwise (fun e1 e2 =>
      List.Lex rltc (e1.1.sig.drop b.level) (e2.1.sig.drop b.level)) := by
  intro n
  induction n with
  | zero =>
    intro b hb
    match b with
    | .node lvl pages tc ec =>
      simp at hb
  | succ n ih =>
    intro b hb hg
    match b with
    | .node lvl pages tc ec =>
      rw [bookEntries_node, Book.level_node]
      have hsz : sizeOf pages ≤ n := by
        simp at hb
        omega
      refine (slots_pairwise pages lvl 0 ?_ (goodB_node.mp hg).2).1
      intro b' hlt hg'
      exact ih b' (by omega) hg'

theorem entries_pairwise (b : Book) (hg : goodB b = true) :
    (bookEntries b).Pairwise (fun e1 e2 =>
      List.Lex rltc (e1.1.sig.drop b.level) (e2.1.sig.drop b.level)) :=
  entries_pairwise_fuel (sizeOf b) b (le_refl _) hg

/-- Every pair the iteration yields is a stored pair: `Get` on its key
returns its value. -/
theorem mem_getItem (b : Book) (t : Tx) :
    ∀ av, goodB b = true → (t, av) ∈ bookEntries b → getItem b t = .ok av := by
  induction b, t using getItem.induct with
  | case1 t l a tc ec hsig =>
    intro av hg hmem
    obtain ⟨j, p, hjget, hpmem, hkidx, hok, hjlt⟩ := locate_key hg hmem
    rw [keyIdx_none t l hsig] at hkidx
    cases hkidx
  | case2 t l a tc ec c hsig hpi =>
    intro av hg hmem
    obtain ⟨j, p, hjget, hpmem, hkidx, hok, hjlt⟩ := locate_key hg hmem
    rw [keyIdx_run t l hsig, hpi] at hkidx
    cases hkidx
  | case3 t l a tc ec c hsig i hpi hgd =>
    intro av hg hmem
    obtain ⟨j, p, hjget, hpmem, hkidx, hok, hjlt⟩ := locate_key hg hmem
    rw [keyIdx_run t l hsig, hpi] at hkidx
    cases hkidx
    rw [getD_of_get? hjget] at hgd
    cases hgd
  | case4 t l a tc ec c hsig i hpi t0 a0 hgd htid =>
    intro av hg hmem
    obtain ⟨j, p, hjget, hpmem, hkidx, hok, hjlt⟩ := locate_key hg hmem
    rw [keyIdx_run t l hsig, hpi] at hkidx
    cases hkidx
    rw [getD_of_get? hjget] at hgd
    cases hgd
    rw [pageEntries_entry] at hpmem
    simp only [List.mem_singleton, Prod.mk.injEq] at hpmem
    obtain ⟨rfl, rfl⟩ := hpmem
    rw [getItem_run_entry hsig hpi (getD_of_get? hjget), if_pos rfl]
  | case5 t l a tc ec c hsig i hpi t0 a0 hgd htid =>
    intro av hg hmem
    obtain ⟨j, p, hjget, hpmem, hkidx, hok, hjlt⟩ := locate_key hg hmem
    rw [keyIdx_run t l hsig, hpi] at hkidx
    cases hkidx
    rw [getD_of_get? hjget] at hgd
    cases hgd
    rw [pageEntries_entry] at hpmem
    simp only [List.mem_singleton, Prod.mk.injEq] at hpmem
    obtain ⟨rfl, rfl⟩ := hpmem
    exact absurd rfl htid
  | case6 t l a tc ec c hsig i hpi b' hgd ih =>
    intro av hg hmem
    obtain ⟨j, p, hjget, hpmem, hkidx, hok, hjlt⟩ := locate_key hg hmem
    rw [keyIdx_run t l hsig, hpi] at hkidx
    cases hkidx
    rw [getD_of_get? hjget] at hgd
    cases hgd
    rw [pageEntries_sub] at hpmem
    rw [getItem_run_sub hsig hpi (getD_of_get? hjget)]
    exact ih av hok.2.1 hpmem

/-! ## Deletion -/

theorem locate_key_full {l : Nat} {a : List (Option Page)} {tc : Int}
    {ec : Nat} {k : Tx} {v1 : Int} (hg : fullB (.node l a tc ec) = true)
    (hmem : (k, v1) ∈ bookEntries (.node l a tc ec)) :
    ∃ j p, a.get? j = some (some p) ∧ (k, v1) ∈ pageEntries p ∧
      keyIdx k l = some j ∧ slotOkF l j (some p) ∧ j < a.length := by
  rw [bookEntries_node] at hmem
  obtain ⟨j, p, hjget, hpmem⟩ := mem_entries_locate hmem
  have hok : slotOkF l j (some p) := by
    have := fullSlots_get a l 0 j (some p) (fullB_node.mp hg).2.2 hjget
    simpa using this
  have hjlt : j < a.length := by
    obtain ⟨hlt, -⟩ := List.get?_eq_some.mp hjget
    exact hlt
  refine ⟨j, p, hjget, hpmem, ?_, hok, hjlt⟩
  cases p with
  | entry t av =>
    rw [pageEntries_entry] at hpmem
    simp only [List.mem_singleton, Prod.mk.injEq] at hpmem
    obtain ⟨rfl, rfl⟩ := hpmem
    exact hok
  | sub b' =>
    rw [pageEntries_sub] at hpmem
    exact hok.2.2.2 (k, v1) hpmem

theorem fullB_tcount {b : Book} (h : fullB b = true) :
    b.tcount = Int.ofNat (bookEntries b).length := by
  match b with
  | .node l a tc ec =>
    rw [Book.tcount_node, bookEntries_node]
    exact (fullB_node.mp h).2.1

theorem erase_middle {A E B : List (Tx × Int)} {x : Tx × Int} (hx : x ∈ E)
    (hnd : ((A ++ E ++ B).map (fun e => e.1.tid)).Nodup) :
    (A ++ E ++ B).erase x = A ++ E.erase x ++ B := by
  have hA : x ∉ A := by
    intro hxa
    have h1 : ((A ++ E).map (fun e => e.1.tid)).Nodup := by
      refine List.Nodup.sublist ?_ hnd
      rw [List.map_append, List.map_append, List.map_append]
      exact List.sublist_append_left _ _
    rw [List.map_append, List.nodup_append] at h1
    exact h1.2.2 (List.mem_map_of_mem _ hxa) (List.mem_map_of_mem _ hx)
  rw [List.append_assoc, List.erase_append_right _ hA,
    List.erase_append_left _ hx, List.append_assoc]

theorem nodup_middle {A E B : List (Tx × Int)}
    (hnd : ((A ++ E ++ B).map (fun e => e.1.tid)).Nodup) :
    (E.map (fun e => e.1.tid)).Nodup := by
  refine List.Nodup.sublist ?_ hnd
  rw [List.map_append, List.map_append]
  exact List.Sublist.trans (List.sublist_append_right _ _)
    (List.sublist_append_left _ _)

theorem tid_not_mem_erase {E : List (Tx × Int)} {x : Tx × Int}
    (hnd : (E.map (fun e => e.1.tid)).Nodup) (hx : x ∈ E) :
    ∀ y ∈ E.erase x, ¬y.1.tid = x.1.tid := by
  obtain ⟨E1, E2, hne, heq, herase⟩ := List.exists_erase_eq hx
  rw [herase]
  rw [heq, List.map_append, List.map_cons, List.nodup_append] at hnd
  intro y hy hyt
  rcases List.mem_append.mp hy with hy1 | hy2
  · exact hnd.2.2 (hyt ▸ List.mem_map_of_mem _ hy1) (List.mem_cons_self _ _)
  · have := hnd.2.1
    rw [List.nodup_cons] at this
    exact this.1 (hyt ▸ List.mem_map_of_mem _ hy2)

theorem firstSome_single : ∀ (l : List (Option Page)) (lvl k : Nat),
    fullSlots lvl k l = true → (slotsEntries l).length = 1 →
    ∃ t av, firstSome l = some (.entry t av) ∧ slotsEntries l = [(t, av)] := by
  intro l
  induction l with
  | nil =>
    intro lvl k hf hlen
    rw [slotsEntries_nil] at hlen
    cases hlen
  | cons hd tl ih =>
    intro lvl k hf hlen
    match hd with
    | none =>
      have hrest : fullSlots lvl (k + 1) tl = true := by
        simpa [fullSlots] using hf
      rw [slotsEntries_cons] at hlen ⊢
      simp only [sEnt, List.nil_append] at hlen ⊢
      obtain ⟨t, av, h1, h2⟩ := ih lvl (k + 1) hrest hlen
      exact ⟨t, av, by rw [firstSome]; exact h1, h2⟩
    | some (.entry t av) =>
      rw [slotsEntries_cons, sEnt_entry] at hlen ⊢
      simp only [List.length_append, List.length_singleton] at hlen
      have : (slotsEntries tl).length = 0 := by omega
      rw [List.length_eq_zero.mp this]
      exact ⟨t, av, by rw [firstSome], rfl⟩
    | some (.sub b') =>
      simp only [fullSlots, Bool.and_eq_true, beq_iff_eq,
        decide_eq_true_eq] at hf
      have h2 : 2 ≤ (bookEntries b').length := hf.1.1.2
      rw [slotsEntries_cons, sEnt_sub, List.length_append] at hlen
      omega

theorem delete_main (b : Book) (k : Tx) :
    ∀ v, fullB b = true → ((bookEntries b).map (fun e => e.1.tid)).Nodup →
    (k, v) ∈ bookEntries b →
    (delItem b k).2 = none ∧
    bookEntries (delItem b k).1 = (bookEntries b).erase (k, v) ∧
    fullB (delItem b k).1 = true ∧
    (delItem b k).1.level = b.level ∧
    getItem (delItem b k).1 k = .error .notFound := by
  induction b, k using delItem.induct with
  | case1 k l a tc ec hsig =>
    intro v hfull hnd hmem
    obtain ⟨j, p, hjget, hpmem, hkidx, hok, hjlt⟩ := locate_key_full hfull hmem
    rw [keyIdx_none k l hsig] at hkidx
    cases hkidx
  | case2 k l a tc ec c hsig hpi =>
    intro v hfull hnd hmem
    obtain ⟨j, p, hjget, hpmem, hkidx, hok, hjlt⟩ := locate_key_full hfull hmem
    rw [keyIdx_run k l hsig, hpi] at hkidx
    cases hkidx
  | case3 k l a tc ec c hsig i hpi hgd =>
    intro v hfull hnd hmem
    obtain ⟨j, p, hjget, hpmem, hkidx, hok, hjlt⟩ := locate_key_full hfull hmem
    rw [keyIdx_run k l hsig, hpi] at hkidx
    cases hkidx
    rw [getD_of_get? hjget] at hgd
    cases hgd
  | case4 k l a tc ec c hsig i hpi t0 a0 hgd htid =>
    intro v hfull hnd hmem
    obtain ⟨j, p, hjget, hpmem, hkidx, hok, hjlt⟩ := locate_key_full hfull hmem
    rw [keyIdx_run k l hsig, hpi] at hkidx
    cases hkidx
    rw [getD_of_get? hjget] at hgd
    cases hgd
    rw [pageEntries_entry] at hpmem
    simp only [List.mem_singleton, Prod.mk.injEq] at hpmem
    obtain ⟨hkt0, hva0⟩ := hpmem
    subst hkt0
    subst hva0
    have hdec : slotsEntries a = slotsEntries (a.take i) ++ [(k, v)] ++
        slotsEntries (a.drop (i + 1)) := by
      rw [slotsEntries_decomp a i (some (.entry k v)) hjget, sEnt_entry]
    have hnd' : ((slotsEntries (a.take i) ++ [(k, v)] ++
        slotsEntries (a.drop (i + 1))).map (fun e => e.1.tid)).Nodup := by
      rw [bookEntries_node, hdec] at hnd
      exact hnd
    have hrun : delItem (Book.node l a tc ec) k =
        (Book.node l (a.set i none) (tc - 1) ec, none) :=
      delItem_run_hit hsig hpi (getD_of_get? hjget) htid
    rw [hrun]
    refine ⟨rfl, ?_, ?_, rfl, ?_⟩
    · rw [bookEntries_node, bookEntries_node,
        slotsEntries_set a i none hjlt, hdec,
        erase_middle (List.mem_singleton.mpr rfl) hnd',
        List.erase_cons_head]
      simp [sEnt]
    · rw [fullB_node]
      obtain ⟨hl36, hcount, hslots⟩ := fullB_node.mp hfull
      refine ⟨by rw [List.length_set]; exact hl36, ?_, ?_⟩
      · rw [slotsEntries_set a i none hjlt]
        have h1 : (slotsEntries a).length =
            (slotsEntries (a.take i)).length + 1 +
            (slotsEntries (a.drop (i + 1))).length := by
          rw [hdec]
          simp only [List.length_append, List.length_singleton]
        simp only [sEnt, List.length_append, List.nil_append, List.length_nil]
        rw [Int.ofNat_eq_coe] at hcount ⊢
        omega
      · exact fullSlots_set0 a l i none hslots trivial
    · exact getItem_run_empty hsig hpi (getD_set_self none hjlt)
  | case5 k l a tc ec c hsig i hpi t0 a0 hgd htid =>
    intro v hfull hnd hmem
    obtain ⟨j, p, hjget, hpmem, hkidx, hok, hjlt⟩ := locate_key_full hfull hmem
    rw [keyIdx_run k l hsig, hpi] at hkidx
    cases hkidx
    rw [getD_of_get? hjget] at hgd
    cases hgd
    rw [pageEntries_entry] at hpmem
    simp only [List.mem_singleton, Prod.mk.injEq] at hpmem
    exact absurd (hpmem.1 ▸ rfl) htid
  | case6 k l a tc ec c hsig i hpi b' hgd b2 e0 hrec ih =>
    intro v hfull hnd hmem
    obtain ⟨j, p, hjget, hpmem, hkidx, hok, hjlt⟩ := locate_key_full hfull hmem
    rw [keyIdx_run k l hsig, hpi] at hkidx
    cases hkidx
    rw [getD_of_get? hjget] at hgd
    cases hgd
    rw [pageEntries_sub] at hpmem
    have hnd' : ((bookEntries b').map (fun e => e.1.tid)).Nodup := by
      rw [bookEntries_node,
        slotsEntries_decomp a i (some (.sub b')) hjget, sEnt_sub] at hnd
      exact nodup_middle hnd
    obtain ⟨hdel2, -, -, -, -⟩ := ih v hok.2.1 hnd' hpmem
    rw [hrec] at hdel2
    cases hdel2
  | case7 k l a tc ec c hsig i hpi b' hgd b2 hrec hc1 pg hfs ih =>
    intro v hfull hnd hmem
    obtain ⟨j, p, hjget, hpmem, hkidx, hok, hjlt⟩ := locate_key_full hfull hmem
    rw [keyIdx_run k l hsig, hpi] at hkidx
    cases hkidx
    rw [getD_of_get? hjget] at hgd
    cases hgd
    rw [pageEntries_sub] at hpmem
    have hdec : slotsEntries a = slotsEntries (a.take i) ++ bookEntries b' ++
        slotsEntries (a.drop (i + 1)) := by
      rw [slotsEntries_decomp a i (some (.sub b')) hjget, sEnt_sub]
    have hndM : ((slotsEntries (a.take i) ++ bookEntries b' ++
        slotsEntries (a.drop (i + 1))).map (fun e => e.1.tid)).Nodup := by
      rw [bookEntries_node, hdec] at hnd
      exact hnd
    have hnd' : ((bookEntries b').map (fun e => e.1.tid)).Nodup :=
      nodup_middle hndM
    obtain ⟨-, hent2, hfull2, hlev2, hget2⟩ := ih v hok.2.1 hnd' hpmem
    rw [hrec] at hent2 hfull2 hlev2 hget2
    have hent2' : bookEntries b2 = (bookEntries b').erase (k, v) := hent2
    have hfull2' : fullB b2 = true := hfull2
    have hlen1 : (bookEntries b2).length = 1 := by
      have ht := fullB_tcount hfull2'
      rw [hc1, Int.ofNat_eq_coe] at ht
      omega
    obtain ⟨l2, a2, tc2, ec2⟩ := b2
    rw [Book.pages_node] at hfs
    obtain ⟨t, av, hfs2, hone⟩ := firstSome_single a2 l2 0
      (fullB_node.mp hfull2').2.2 (by rw [bookEntries_node] at hlen1; exact hlen1)
    rw [hfs2] at hfs
    cases hfs
    have hrun : delItem (Book.node l a tc ec) k =
        (Book.node l (a.set i (some (.entry t av))) (tc - 1) ec, none) :=
      delItem_run_sub_collapse hsig hpi
        (getD_of_get? hjget) hrec hc1 (by rw [Book.pages_node]; exact hfs2)
    rw [hrun]
    have hmem_t : (t, av) ∈ (bookEntries b').erase (k, v) := by
      rw [← hent2', bookEntries_node, hone]
      exact List.mem_singleton.mpr rfl
    refine ⟨rfl, ?_, ?_, rfl, ?_⟩
    · rw [bookEntries_node, bookEntries_node,
        slotsEntries_set a i (some (.entry t av)) hjlt, sEnt_entry, hdec,
        erase_middle hpmem hndM, ← hent2', bookEntries_node, hone]
    · rw [fullB_node]
      obtain ⟨hl36, hcount, hslots⟩ := fullB_node.mp hfull
      refine ⟨by rw [List.length_set]; exact hl36, ?_, ?_⟩
      · rw [slotsEntries_set a i (some (.entry t av)) hjlt, sEnt_entry]
        have h1 : (slotsEntries a).length =
            (slotsEntries (a.take i)).length + (bookEntries b').length +
            (slotsEntries (a.drop (i + 1))).length := by
          rw [hdec]
          simp only [List.length_append]
        have h2 : 2 ≤ (bookEntries b').length := hok.2.2.1
        have h3 : ((bookEntries b').erase (k, v)).length =
            (bookEntries b').length - 1 := List.length_erase_of_mem hpmem
        have h4 : (bookEntries (Book.node l2 a2 tc2 ec2)).length = 1 := hlen1
        rw [bookEntries_node, hone] at h4
        rw [← hent2', bookEntries_node, hone] at h3
        simp only [List.length_append, List.length_singleton] at h3 ⊢
        rw [Int.ofNat_eq_coe] at hcount ⊢
        omega
      · refine fullSlots_set0 a l i (some (.entry t av)) hslots ?_
        have : keyIdx t l = some i :=
          hok.2.2.2 (t, av) (List.mem_of_mem_erase hmem_t)
        simpa [slotOkF] using this
    · rw [getItem_run_entry hsig hpi
        (getD_set_self (some (.entry t av)) hjlt),
        if_neg (tid_not_mem_erase hnd' hpmem (t, av) hmem_t)]
  | case8 k l a tc ec c hsig i hpi b' hgd b2 hrec hc1 hfs ih =>
    intro v hfull hnd hmem
    obtain ⟨j, p, hjget, hpmem, hkidx, hok, hjlt⟩ := locate_key_full hfull hmem
    rw [keyIdx_run k l hsig, hpi] at hkidx
    cases hkidx
    rw [getD_of_get? hjget] at hgd
    cases hgd
    rw [pageEntries_sub] at hpmem
    have hnd' : ((bookEntries b').map (fun e => e.1.tid)).Nodup := by
      rw [bookEntries_node,
        slotsEntries_decomp a i (some (.sub b')) hjget, sEnt_sub] at hnd
      exact nodup_middle hnd
    obtain ⟨-, hent2, hfull2, -, -⟩ := ih v hok.2.1 hnd' hpmem
    rw [hrec] at hent2 hfull2
    have hfull2' : fullB b2 = true := hfull2
    have hlen1 : (bookEntries b2).length = 1 := by
      have ht := fullB_tcount hfull2'
      rw [hc1, Int.ofNat_eq_coe] at ht
      omega
    obtain ⟨l2, a2, tc2, ec2⟩ := b2
    rw [Book.pages_node] at hfs
    obtain ⟨t, av, hfs2, hone⟩ := firstSome_single a2 l2 0
      (fullB_node.mp hfull2').2.2 (by rw [bookEntries_node] at hlen1; exact hlen1)
    rw [hfs2] at hfs
    cases hfs
  | case9 k l a tc ec c hsig i hpi b' hgd b2 hrec hc1 ih =>
    intro v hfull hnd hmem
    obtain ⟨j, p, hjget, hpmem, hkidx, hok, hjlt⟩ := locate_key_full hfull hmem
    rw [keyIdx_run k l hsig, hpi] at hkidx
    cases hkidx
    rw [getD_of_get? hjget] at hgd
    cases hgd
    rw [pageEntries_sub] at hpmem
    have hdec : slotsEntries a = slotsEntries (a.take i) ++ bookEntries b' ++
        slotsEntries (a.drop (i + 1)) := by
      rw [slotsEntries_decomp a i (some (.sub b')) hjget, sEnt_sub]
    have hndM : ((slotsEntries (a.take i) ++ bookEntries b' ++
        slotsEntries (a.drop (i + 1))).map (fun e => e.1.tid)).Nodup := by
      rw [bookEntries_node, hdec] at hnd
      exact hnd
    have hnd' : ((bookEntries b').map (fun e => e.1.tid)).Nodup :=
      nodup_middle hndM
    obtain ⟨-, hent2, hfull2, hlev2, hget2⟩ := ih v hok.2.1 hnd' hpmem
    rw [hrec] at hent2 hfull2 hlev2 hget2
    have hent2' : bookEntries b2 = (bookEntries b').erase (k, v) := hent2
    have hfull2' : fullB b2 = true := hfull2
    have hlev2' : b2.level = b'.level := hlev2
    have hget2' : getItem b2 k = Except.error Err.notFound := hget2
    have hlenE : (bookEntries b2).length = (bookEntries b').length - 1 := by
      rw [hent2']
      exact List.length_erase_of_mem hpmem
    have h2old : 2 ≤ (bookEntries b').length := hok.2.2.1
    have hlenNe : (bookEntries b2).length ≠ 1 := by
      intro hx
      have ht := fullB_tcount hfull2'
      rw [hx, Int.ofNat_eq_coe] at ht
      exact hc1 (by omega)
    have h2new : 2 ≤ (bookEntries b2).length := by omega
    have hrun : delItem (Book.node l a tc ec) k =
        (Book.node l (a.set i (some (.sub b2))) (tc - 1) ec, none) :=
      delItem_run_sub_nocollapse hsig hpi (getD_of_get? hjget) hrec hc1
    rw [hrun]
    refine ⟨rfl, ?_, ?_, rfl, ?_⟩
    · rw [bookEntries_node, bookEntries_node,
        slotsEntries_set a i (some (.sub b2)) hjlt, sEnt_sub, hdec,
        erase_middle hpmem hndM, hent2']
    · rw [fullB_node]
      obtain ⟨hl36, hcount, hslots⟩ := fullB_node.mp hfull
      refine ⟨by rw [List.length_set]; exact hl36, ?_, ?_⟩
      · rw [slotsEntries_set a i (some (.sub b2)) hjlt, sEnt_sub]
        have h1 : (slotsEntries a).length =
            (slotsEntries (a.take i)).length + (bookEntries b').length +
            (slotsEntries (a.drop (i + 1))).length := by
          rw [hdec]
          simp only [List.length_append]
        simp only [List.length_append]
        rw [Int.ofNat_eq_coe] at hcount ⊢
        omega
      · refine fullSlots_set0 a l i (some (.sub b2)) hslots ?_
        refine ⟨by rw [hlev2']; simpa using hok.1, hfull2', h2new, ?_⟩
        intro e he
        refine hok.2.2.2 e ?_
        rw [hent2'] at he
        exact List.mem_of_mem_erase he
    · rw [getItem_run_sub hsig hpi (getD_set_self (some (.sub b2)) hjlt)]
      exact hget2'

/-! ## Signature generator properties -/

theorem toBase36_zero : toBase36 0 = [] := by
  rw [toBase36]
  rfl

theorem toBase36_step {v : Nat} (h : v ≠ 0) :
    toBase36 v = toBase36 (v / 36) ++ [DIGITS.getD (v % 36) '0'] := by
  rw [toBase36]
  simp [h]

theorem toBase36_length : ∀ (n : Nat) (v : Nat), v < 36 ^ n →
    (toBase36 v).length ≤ n := by
  intro n
  induction n with
  | zero =>
    intro v hv
    have : v = 0 := by simpa using hv
    subst this
    rw [toBase36_zero]
    exact le_refl 0
  | succ n ih =>
    intro v hv
    by_cases h0 : v = 0
    · subst h0
      rw [toBase36_zero]
      simp
    · rw [toBase36_step h0, List.length_append, List.length_singleton]
      have hdiv : v / 36 < 36 ^ n := by
        rw [Nat.div_lt_iff_lt_mul (by omega)]
        calc v < 36 ^ (n + 1) := hv
        _ = 36 ^ n * 36 := by rw [pow_succ]
      have := ih (v / 36) hdiv
      omega

theorem digit_mem : ∀ i, i < 36 → DIGITS.getD i '0' ∈ DIGITS := by decide

theorem toBase36_mem : ∀ v : Nat, ∀ c ∈ toBase36 v, c ∈ DIGITS := by
  intro v
  induction v using Nat.strong_induction_on with
  | _ v ih =>
    intro c hc
    by_cases h0 : v = 0
    · subst h0
      rw [toBase36_zero] at hc
      cases hc
    · rw [toBase36_step h0] at hc
      rcases List.mem_append.mp hc with h1 | h2
      · exact ih (v / 36) (Nat.div_lt_self (Nat.pos_of_ne_zero h0) (by omega)) c h1
      · rw [List.mem_singleton.mp h2]
        exact digit_mem (v % 36) (Nat.mod_lt v (by omega))

theorem digits_legal : ∀ c ∈ DIGITS, c ∈ LEGAL_CHARACTERS := by decide

theorem signHash_lt (ts : Nat) (fu tu : List Char) :
    signHash ts fu tu < SIGNATURE_MODULUS := by
  unfold signHash
  exact Nat.mod_lt _ (by unfold SIGNATURE_MODULUS; positivity)

theorem sign_sig_length (ts : Nat) (fu tu : List Char) :
    (if signHash ts fu tu = 0 then ['0'] else toBase36 (signHash ts fu tu)).length
      ≤ 36 := by
  by_cases h0 : signHash ts fu tu = 0
  · rw [if_pos h0]
    simp
  · rw [if_neg h0]
    refine toBase36_length 36 _ ?_
    have := signHash_lt ts fu tu
    unfold SIGNATURE_MODULUS at this
    exact this

theorem sign_length (ts : Nat) (fu tu : List Char) :
    (Transaction.sign ts fu tu).length = 36 := by
  unfold Transaction.sign
  simp only [List.length_append, List.length_replicate]
  have := sign_sig_length ts fu tu
  unfold SIGNATURE_LENGTH
  omega

theorem sign_legal (ts : Nat) (fu tu : List Char) :
    ∀ c ∈ Transaction.sign ts fu tu, c ∈ LEGAL_CHARACTERS := by
  intro c hc
  unfold Transaction.sign at hc
  rcases List.mem_append.mp hc with h1 | h2
  · rw [List.eq_of_mem_replicate h1]
    decide
  · by_cases h0 : signHash ts fu tu = 0
    · rw [if_pos h0] at h2
      rw [List.mem_singleton.mp h2]
      decide
    · rw [if_neg h0] at h2
      exact digits_legal c (toBase36_mem _ c h2)

/-! ## Concrete stores used to exhibit behaviour -/

def txA : Tx := ⟨1, ['a', 'a']⟩

def txB : Tx := ⟨2, ['a', 'b']⟩

/-- Two keys colliding on their first character: the root's slot `a` holds a
nested book with both entries. -/
def bugBook : Book := (setItem (setItem (emptyBook 0) txA 10).1 txB 20).1

def txD1 : Tx := ⟨1, ['a', 'a', 'a']⟩

def txD2 : Tx := ⟨2, ['a', 'a', 'b']⟩

def slotBook : Option Page → Option Book
  | some (.sub b) => some b
  | _ => none

/-! The intermediate states of the three-character demonstration for C4:
`txD1` and `txD2` share a two-character prefix, `txD1` is then re-set with
its own value (which spuriously inflates nested counts), and `txD2` is
deleted.  Each literal below is the store state after one more step. -/

def R36 : List (Option Page) := List.replicate 36 none

/-- Level-2 child after both keys are stored: slots `a` and `b`. -/
def pagesD2 : List (Option Page) :=
  (R36.set 0 (some (.entry txD1 10))).set 1 (some (.entry txD2 20))

def bookD2 : Book := .node 2 pagesD2 2 0

def pagesD1 : List (Option Page) := R36.set 0 (some (.sub bookD2))

def bookD1 : Book := .node 1 pagesD1 2 0

def pagesR0 : List (Option Page) := R36.set 0 (some (.entry txD1 10))

/-- The level-1 child after the re-set of `txD1`: `total_count` 3 for 2 keys. -/
def bookD1x : Book := .node 1 (pagesD1.set 0 (some (.sub bookD2))) 3 0

def pagesDel : List (Option Page) :=
  (pagesD1.set 0 (some (.sub bookD2))).set 0 (some (.entry txD1 10))

/-- The level-1 child after `Delete(txD2)`: one key, but not collapsed. -/
def bookDel : Book := .node 1 pagesDel (3 - 1) 0

def txC : Tx := ⟨7, ['a']⟩

def oneBook : Book := (setItem (emptyBook 0) txC 5).1

def txE1 : Tx := ⟨1, ['a', 'b']⟩

def txE2 : Tx := ⟨2, ['a', 'b']⟩

def abBook : Book := (setItem (emptyBook 0) txE1 10).1

/-! ## Step-by-step evaluation of the three-character demonstration

Each lemma advances the run by one branch of the corresponding operation,
so that no proof ever asks the kernel to reduce a well-founded fixpoint on
a concrete store. -/

theorem slotsEntries_replicate : ∀ n : Nat, slotsEntries (List.replicate n none) = []
  | 0 => slotsEntries_nil
  | n + 1 => by
    rw [List.replicate_succ, slotsEntries_cons, slotsEntries_replicate n]
    rfl

theorem eval_c2 : collide (1 + 1) txD1 10 txD2 20 = .ok bookD2 := by
  rw [collide_run_step (show txD1.sig.get? (1 + 1) = some 'a' from rfl)]
  rfl

theorem eval_c1 : collide (0 + 1) txD1 10 txD2 20 = .ok bookD1 := by
  rw [collide_run_step (show txD1.sig.get? (0 + 1) = some 'a' from rfl), eval_c2]
  rfl

theorem eval_s1 : (setItem (emptyBook 0) txD1 10).1 = Book.node 0 pagesR0 1 0 := by
  rw [show emptyBook 0 = Book.node 0 R36 0 0 from rfl,
    setItem_run_empty (show txD1.sig.get? 0 = some 'a' from rfl)
      (show pageIndex 'a' = some 0 from rfl)
      (show R36.getD 0 none = none from rfl)]
  rfl

theorem eval_s2 :
    (setItem (Book.node 0 pagesR0 1 0) txD2 20).1 =
      Book.node 0 (pagesR0.set 0 (some (.sub bookD1))) 2 0 := by
  rw [setItem_run_collide (show txD2.sig.get? 0 = some 'a' from rfl)
      (show pageIndex 'a' = some 0 from rfl)
      (show pagesR0.getD 0 none = some (.entry txD1 10) from rfl)
      (show ¬txD1.tid = txD2.tid from (by decide)), eval_c1]
  rfl

theorem eval_s3rec : setItem bookD2 txD1 10 = (bookD2, .ok false) := by
  rw [show bookD2 = Book.node 2 pagesD2 2 0 from rfl,
    setItem_run_same (show txD1.sig.get? 2 = some 'a' from rfl)
      (show pageIndex 'a' = some 0 from rfl)
      (show pagesD2.getD 0 none = some (.entry txD1 10) from rfl)
      (show Tx.tid txD1 = Tx.tid txD1 from rfl)
      (show (10 : Int) = 10 from rfl)]

theorem eval_s3mid : setItem bookD1 txD1 10 = (bookD1x, .ok true) := by
  rw [show bookD1 = Book.node 1 pagesD1 2 0 from rfl,
    setItem_run_sub_ok_t (show txD1.sig.get? 1 = some 'a' from rfl)
      (show pageIndex 'a' = some 0 from rfl)
      (show pagesD1.getD 0 none = some (.sub bookD2) from rfl)
      eval_s3rec (show (10 : Int) ≠ 0 from (by decide))]
  rfl

theorem eval_s3 :
    (setItem (Book.node 0 (pagesR0.set 0 (some (.sub bookD1))) 2 0) txD1 10).1 =
      Book.node 0 ((pagesR0.set 0 (some (.sub bookD1))).set 0 (some (.sub bookD1x))) 3 0 := by
  rw [setItem_run_sub_ok_t (show txD1.sig.get? 0 = some 'a' from rfl)
      (show pageIndex 'a' = some 0 from rfl)
      (show (pagesR0.set 0 (some (.sub bookD1))).getD 0 none = some (.sub bookD1) from rfl)
      eval_s3mid (show (10 : Int) ≠ 0 from (by decide))]
  rfl

theorem eval_d2 :
    delItem bookD2 txD2 = (Book.node 2 (pagesD2.set 1 none) (2 - 1) 0, none) := by
  rw [show bookD2 = Book.node 2 pagesD2 2 0 from rfl,
    delItem_run_hit (show txD2.sig.get? 2 = some 'b' from rfl)
      (show pageIndex 'b' = some 1 from rfl)
      (show pagesD2.getD 1 none = some (.entry txD2 20) from rfl)
      (show Tx.tid txD2 = Tx.tid txD2 from rfl)]

theorem eval_d1 : delItem bookD1x txD2 = (bookDel, none) := by
  rw [show bookD1x = Book.node 1 (pagesD1.set 0 (some (.sub bookD2))) 3 0 from rfl,
    delItem_run_sub_collapse (show txD2.sig.get? 1 = some 'a' from rfl)
      (show pageIndex 'a' = some 0 from rfl)
      (show (pagesD1.set 0 (some (.sub bookD2))).getD 0 none = some (.sub bookD2) from rfl)
      eval_d2
      (show (Book.node 2 (pagesD2.set 1 none) (2 - 1) 0).tcount = 1 from rfl)
      (show firstSome (Book.node 2 (pagesD2.set 1 none) (2 - 1) 0).pages =
        some (.entry txD1 10) from rfl)]
  rfl

theorem eval_d0 :
    delItem (Book.node 0 ((pagesR0.set 0 (some (.sub bookD1))).set 0 (some (.sub bookD1x))) 3 0) txD2 =
      (Book.node 0 (((pagesR0.set 0 (some (.sub bookD1))).set 0 (some (.sub bookD1x))).set 0
        (some (.sub bookDel))) (3 - 1) 0, none) := by
  rw [delItem_run_sub_nocollapse (show txD2.sig.get? 0 = some 'a' from rfl)
      (show pageIndex 'a' = some 0 from rfl)
      (show ((pagesR0.set 0 (some (.sub bookD1))).set 0 (some (.sub bookD1x))).getD 0 none =
        some (.sub bookD1x) from rfl)
      eval_d1 (show ¬bookDel.tcount = 1 from (by decide))]

/-! ## The claims -/

/-- C1: the claim says a same-value `Set` of an already-stored key leaves
`Len()` unchanged, `ErrorCount()` unchanged and `Get(k) == v`, including when
the key sits behind nested child stores.  The code violates the `Len()` part:
re-setting `txA ↦ 10` while `txA` sits behind a nested book raises the root
`total_count` from 2 to 3, because `added = page[transaction] = amount` binds
`added` to the (truthy) amount rather than to the child's insertion flag.
The entries, the error count and the lookup behave as the claim expects. -/
theorem claim_C1 :
    lengthB bugBook = 2 ∧
    (setItem bugBook txA 10).2 = .ok true ∧
    lengthB (setItem bugBook txA 10).1 = 3 ∧
    bookEntries (setItem bugBook txA 10).1 = bookEntries bugBook ∧
    bookErr (setItem bugBook txA 10).1 = bookErr bugBook ∧
    getItem (setItem bugBook txA 10).1 txA = .ok 10 := by
  refine ⟨?_, ?_, ?_, ?_, ?_, ?_⟩ <;>
    simp [setItem, collide, getItem, bookEntries, slotsEntries, pageEntries,
      bookErr, slotsErr, pageErr, lengthB, Book.tcount, emptyBook, pageIndex,
      LEGAL_CHARACTERS, txA, txB, bugBook]

/-- C2: the claim says every node's `count` equals the number of distinct keys
in its subtree after any sequence of Set/Delete, the increment happening
exactly when a recursive Set inserted a new key.  The code violates this: a
same-value re-set of a key behind a nested book increments `total_count`
although no key was inserted (`added` is bound to the truthy amount by the
chained assignment), leaving the root count at 3 over 2 stored keys. -/
theorem claim_C2 :
    (setItem bugBook txA 10).1.tcount = 3 ∧
    (bookEntries (setItem bugBook txA 10).1).length = 2 := by
  refine ⟨?_, ?_⟩ <;>
    simp [setItem, collide, bookEntries, slotsEntries, pageEntries,
      Book.tcount, emptyBook, pageIndex, LEGAL_CHARACTERS, txA, txB, bugBook]

/-- C4: the claim says that after any deletion a child store left holding
exactly one key is collapsed into its parent's slot.  The code violates this
once counts are corrupted by the `__setitem__` chained-assignment slip: after
`Set(txD1, 10)`, `Set(txD2, 20)`, `Set(txD1, 10)` again and `Delete(txD2)`,
the level-1 child had `total_count` 3 for 2 keys, so the collapse test
`page.total_count == 1` sees 2 and leaves a child store that holds exactly
the one key `txD1` (with its stale count 2). -/
theorem claim_C4 :
    (delItem (setItem (setItem (setItem (emptyBook 0) txD1 10).1 txD2 20).1
        txD1 10).1 txD2).2 = none ∧
    (slotBook ((delItem (setItem (setItem (setItem (emptyBook 0) txD1 10).1
        txD2 20).1 txD1 10).1 txD2).1.pages.getD 0 none)).map bookEntries =
      some [(txD1, 10)] ∧
    (slotBook ((delItem (setItem (setItem (setItem (emptyBook 0) txD1 10).1
        txD2 20).1 txD1 10).1 txD2).1.pages.getD 0 none)).map Book.tcount =
      some 2 := by
  rw [eval_s1, eval_s2, eval_s3, eval_d0]
  refine ⟨rfl, ?_, ?_⟩
  · rw [show slotBook ((Book.node 0 (((pagesR0.set 0 (some (.sub bookD1))).set 0
        (some (.sub bookD1x))).set 0 (some (.sub bookDel))) (3 - 1) 0,
        (none : Option Err)).1.pages.getD 0 none) = some bookDel from rfl]
    rw [Option.map_some']
    rw [show bookDel = Book.node 1 pagesDel (3 - 1) 0 from rfl, bookEntries_node,
      show pagesDel = some (.entry txD1 10) :: List.replicate 35 none from rfl,
      slotsEntries_cons, sEnt_entry, slotsEntries_replicate]
    rfl
  · rfl

/-- C3: for every structurally well-formed store and key `k` stored with
value `v1`, `Set(k, v2)` with `v2 ≠ v1` leaves the stored value unchanged
(`Get(k) == v1`) and increases `ErrorCount()` — the sum of `error_count`
over the node and all nested child stores — by exactly 1, at whatever depth
`k` is stored. -/
theorem claim_C3 (b : Book) (k : Tx) (v1 v2 : Int) (hg : goodB b = true)
    (hmem : (k, v1) ∈ bookEntries b) (hne : v2 ≠ v1) :
    getItem (setItem b k v2).1 k = .ok v1 ∧
    bookErr (setItem b k v2).1 = bookErr b + 1 :=
  ⟨(conflict_main b k v2 v1 hg hmem hne).2.1,
   (conflict_main b k v2 v1 hg hmem hne).2.2⟩

theorem claim_C3_witness :
    getItem (setItem bugBook txA 99).1 txA = .ok 10 ∧
    bookErr (setItem bugBook txA 99).1 = bookErr bugBook + 1 :=
  claim_C3 bugBook txA 10 99
    (by simp [setItem, collide, goodB, goodSlots, bookEntries, slotsEntries,
      pageEntries, keyIdx, Book.level, emptyBook, pageIndex, LEGAL_CHARACTERS,
      txA, txB, bugBook])
    (by simp [setItem, collide, bookEntries, slotsEntries, pageEntries,
      emptyBook, pageIndex, LEGAL_CHARACTERS, txA, txB, bugBook])
    (by decide)

/-- C5: for every store satisfying the specification's data-model invariants
(structure, accurate counts, no singleton child store, identity-distinct
keys) that contains key `k`, `Delete(k)` succeeds, afterwards `Get(k)` fails
with `KeyError` (NotFound), and `Len()` decreases by exactly 1. -/
theorem claim_C5 (b : Book) (k : Tx) (v : Int) (hfull : fullB b = true)
    (hnd : ((bookEntries b).map (fun e => e.1.tid)).Nodup)
    (hmem : (k, v) ∈ bookEntries b) :
    (delItem b k).2 = none ∧
    getItem (delItem b k).1 k = .error .notFound ∧
    lengthB (delItem b k).1 = lengthB b - 1 := by
  obtain ⟨h1, h2, h3, h4, h5⟩ := delete_main b k v hfull hnd hmem
  refine ⟨h1, h5, ?_⟩
  have ha := fullB_tcount hfull
  have hb := fullB_tcount h3
  rw [h2] at hb
  have hpos : (bookEntries b).length ≠ 0 := by
    intro hz
    rw [List.length_eq_zero.mp hz] at hmem
    cases hmem
  unfold lengthB
  rw [ha, hb, List.length_erase_of_mem hmem, Int.ofNat_eq_coe, Int.ofNat_eq_coe]
  omega

theorem claim_C5_witness :
    (delItem bugBook txA).2 = none ∧
    getItem (delItem bugBook txA).1 txA = .error .notFound ∧
    lengthB (delItem bugBook txA).1 = lengthB bugBook - 1 :=
  claim_C5 bugBook txA 10
    (by simp [setItem, collide, fullB, fullSlots, bookEntries, slotsEntries,
      pageEntries, keyIdx, Book.level, Book.tcount, emptyBook, pageIndex,
      LEGAL_CHARACTERS, txA, txB, bugBook])
    (by simp [setItem, collide, bookEntries, slotsEntries, pageEntries,
      emptyBook, pageIndex, LEGAL_CHARACTERS, txA, txB, bugBook])
    (by simp [setItem, collide, bookEntries, slotsEntries, pageEntries,
      emptyBook, pageIndex, LEGAL_CHARACTERS, txA, txB, bugBook])

/-- C6: for every structurally well-formed store rooted at level 0, the
iteration yields only stored pairs (each satisfies `Get(key) == value`),
yields no pair twice, and yields keys in strictly ascending lexicographic
order of the full signature under the alphabet ranking a=0 … z=25,
0=26 … 9=35 (the ranking `rankOf` derived from `page_index`) — an order
determined by the signatures alone, hence independent of insertion order. -/
theorem claim_C6 (b : Book) (hg : goodB b = true) (h0 : b.level = 0) :
    (bookEntries b).Pairwise (fun e1 e2 => List.Lex rltc e1.1.sig e2.1.sig) ∧
    (bookEntries b).Nodup ∧
    (∀ e ∈ bookEntries b, getItem b e.1 = .ok e.2) := by
  have hp := entries_pairwise b hg
  rw [h0] at hp
  simp only [List.drop_zero] at hp
  refine ⟨hp, ?_, fun e he => mem_getItem b e.1 e.2 hg he⟩
  refine hp.imp ?_
  intro e1 e2 hlex heq
  exact lex_rltc_irrefl _ (heq ▸ hlex)

theorem claim_C6_witness :
    (bookEntries bugBook).Pairwise
      (fun e1 e2 => List.Lex rltc e1.1.sig e2.1.sig) ∧
    (bookEntries bugBook).Nodup ∧
    (∀ e ∈ bookEntries bugBook, getItem bugBook e.1 = .ok e.2) :=
  claim_C6 bugBook
    (by simp [setItem, collide, goodB, goodSlots, bookEntries, slotsEntries,
      pageEntries, keyIdx, Book.level, emptyBook, pageIndex, LEGAL_CHARACTERS,
      txA, txB, bugBook])
    (by simp [setItem, collide, emptyBook, Book.level, pageIndex,
      LEGAL_CHARACTERS, txA, txB, bugBook])

/-- C7: every mutating operation is atomic: whenever `Set` or `Delete` ends
in an error (KeyError, IndexError or ValueError), the structure — every
page, count and error counter — is exactly as before the call.  This holds
for every store, with no well-formedness assumption. -/
theorem claim_C7 (b : Book) (tx : Tx) (amt : Int) :
    (∀ e, (setItem b tx amt).2 = Except.error e → (setItem b tx amt).1 = b) ∧
    (∀ e, (delItem b tx).2 = some e → (delItem b tx).1 = b) :=
  ⟨setItem_error_unchanged b tx amt, delItem_error_unchanged b tx⟩

theorem claim_C7_witness : (delItem (emptyBook 0) txC).1 = emptyBook 0 :=
  (claim_C7 (emptyBook 0) txC 0).2 Err.notFound
    (by simp [delItem, emptyBook, pageIndex, LEGAL_CHARACTERS, txC])

/-- C8: if `Set` is called with a key that is a distinct entity from an
already-stored key but has an identical full signature (over the legal
alphabet), the operation fails with the out-of-range condition (the
`IndexError` raised when the depth reaches the signature length) instead of
recursing unboundedly or overwriting the stored entry. -/
theorem claim_C8 (b : Book) (k1 k2 : Tx) (a1 v : Int) (hg : goodB b = true)
    (hmem : (k1, a1) ∈ bookEntries b) (hsig : k2.sig = k1.sig)
    (htid : ¬k2.tid = k1.tid)
    (hleg : ∀ c ∈ k1.sig, (pageIndex c).isSome = true) :
    (setItem b k2 v).2 = .error .outOfRange :=
  identical_sig_main b k2 v k1 a1 hg hmem hsig htid hleg

theorem claim_C8_witness :
    (setItem abBook txE2 20).2 = .error .outOfRange :=
  claim_C8 abBook txE1 txE2 10 20
    (by simp [setItem, goodB, goodSlots, keyIdx, Book.level, emptyBook,
      pageIndex, LEGAL_CHARACTERS, txE1, abBook])
    (by simp [setItem, bookEntries, slotsEntries, pageEntries, emptyBook,
      pageIndex, LEGAL_CHARACTERS, txE1, abBook])
    (by decide) (by decide) (by decide)

/-- C9 counterexample: the claim "for all keys k with value v, after
`Set(k, v)`, `Get(k) == v`" is false as stated: with `txC` already stored at
value 5, `Set(txC, 7)` is the conflict path — the stored value is kept, so
`Get(txC)` returns 5, not 7. -/
theorem claim_C9_counterexample :
    ¬getItem (setItem oneBook txC 7).1 txC = .ok 7 := by
  simp [setItem, getItem, emptyBook, pageIndex, LEGAL_CHARACTERS, txC, oneBook]

/-- C9 (amended): for every structurally well-formed store and key `k` not
already stored (no stored key carries `k`'s identity), if `Set(k, v)`
completes without an exception then `Get(k) == v`.  (As stated the claim
fails when `k` is already stored with a different value: the conflict path
keeps the old value — see the counterexample.) -/
theorem claim_C9 (b : Book) (k : Tx) (v : Int) (hg : goodB b = true)
    (hfresh : ∀ x ∈ bookEntries b, x.1.tid ≠ k.tid) (b2 : Book) (r : Bool)
    (hset : setItem b k v = (b2, .ok r)) : getItem b2 k = .ok v :=
  insert_fresh_main b k v hg hfresh b2 r hset

theorem claim_C9_witness :
    getItem (setItem (emptyBook 0) txC 5).1 txC = .ok 5 :=
  claim_C9 (emptyBook 0) txC 5
    (by simp [goodB, goodSlots, emptyBook])
    (by simp [bookEntries, slotsEntries, emptyBook])
    (setItem (emptyBook 0) txC 5).1 true
    (by simp [setItem, emptyBook, pageIndex, LEGAL_CHARACTERS, txC])

/-- C10: `Transaction.sign` always produces a signature of exactly 36
characters, each drawn from the store's legal alphabet a–z, 0–9, and it is
deterministic: transactions with equal timestamp, sender and receiver get
equal signatures (repeated signing included), so every signed key satisfies
the fixed-length, fixed-alphabet precondition the store assumes. -/
theorem claim_C10 (ts : Nat) (fu tu : List Char) :
    (Transaction.sign ts fu tu).length = 36 ∧
    (∀ c ∈ Transaction.sign ts fu tu, c ∈ LEGAL_CHARACTERS) ∧
    (∀ ts2 fu2 tu2, ts = ts2 → fu = fu2 → tu = tu2 →
      Transaction.sign ts fu tu = Transaction.sign ts2 fu2 tu2) := by
  refine ⟨sign_length ts fu tu, sign_legal ts fu tu, ?_⟩
  intro ts2 fu2 tu2 h1 h2 h3
  rw [h1, h2, h3]

theorem claim_C10_witness :
    (Transaction.sign 50 ['a', 'l', 'i', 'c', 'e'] ['b', 'o', 'b']).length
      = 36 ∧
    Transaction.sign 50 ['a', 'l', 'i', 'c', 'e'] ['b', 'o', 'b'] =
      Transaction.sign 50 ['a', 'l', 'i', 'c', 'e'] ['b', 'o', 'b'] :=
  ⟨(claim_C10 50 ['a', 'l', 'i', 'c', 'e'] ['b', 'o', 'b']).1,
   (claim_C10 50 ['a', 'l', 'i', 'c', 'e'] ['b', 'o', 'b']).2.2
     50 ['a', 'l', 'i', 'c', 'e'] ['b', 'o', 'b'] rfl rfl rfl⟩
